import Mathlib

/-!
Shallow embedding of the cyclogon-generator core (`cyclogons_graph`):
the curve model (`Cyclogon.js`), the regular-polygon and circle models
(`Polygon.js`, `Circle.js`), the draw-point model (`DrawPoint.js`) and the
curve-generation and simplification algorithms (`CyclogonCalculator.js`).
JavaScript numbers are modelled by real numbers (ℝ); loop counters and
array indices by ℕ/ℤ; JavaScript `null`/absent object fields by `Option`;
the one curve operation whose division can leave the finite range
(`normalize`) is modelled with an explicit IEEE-style value type (`JSNum`)
so that its `0/0 = NaN` path is not collapsed.
-/

open Real

noncomputable section

namespace CyclogonsGraph

/-- JavaScript `Math.atan2(y, x)`: the angle of the point `(x, y)`,
in `(-π, π]`, with `atan2 0 0 = 0`, modelled by the complex argument. -/
def atan2 (y x : ℝ) : ℝ := Complex.arg ⟨x, y⟩

/-- JavaScript `x % 1` (the fractional remainder, sign of the dividend). -/
def jsMod1 (x : ℝ) : ℝ := if 0 ≤ x then Int.fract x else -Int.fract (-x)

/-- A planar point `{x, y}`. -/
structure P2 where
  x : ℝ
  y : ℝ

/-- Rotation of a point around a pivot
(`CyclogonCalculator._rotatePoint`, CyclogonCalculator.js lines 346-357). -/
def rotatePoint (point pivot : P2) (angle : ℝ) : P2 :=
  let c := Real.cos angle
  let s := Real.sin angle
  let dx := point.x - pivot.x
  let dy := point.y - pivot.y
  { x := pivot.x + dx * c - dy * s
    y := pivot.y + dx * s + dy * c }

/-!
## Curve model (`Cyclogon.js`)

A sample record pushed by `addPoint`.  The JavaScript objects are
heterogeneous: a cycloid sample has fields `theta` and `center`, a cyclogon
sample has `sideIndex`, `rotation`, `pivot` and `center`.  Absent fields
are `Option.none`.
-/

/-- One sample record of a generated curve. -/
structure SamplePoint where
  x : ℝ
  y : ℝ
  theta : Option ℝ := none
  sideIndex : Option ℕ := none
  rotation : Option ℝ := none
  pivot : Option P2 := none
  center : Option P2 := none

instance : Inhabited SamplePoint := ⟨{ x := 0, y := 0 }⟩

/-- The tag of a generated curve (`CurveType` in CyclogonCalculator.js). -/
inductive CurveType where
  | cycloid
  | cyclogon
  deriving DecidableEq

/-- Curve-level metadata scalars (`setMetadata` maps; absent keys are none). -/
structure Metadata where
  cycles : Option ℝ := none
  totalDistance : Option ℝ := none
  drawPointDistance : Option ℝ := none
  drawPointAngle : Option ℝ := none
  sides : Option ℕ := none
  sideLength : Option ℝ := none
  exteriorAngle : Option ℝ := none
  adjustmentRotation : Option ℝ := none

/-- The curve model (`Cyclogon` class, Cyclogon.js). -/
structure Cyclogon where
  type : CurveType
  points : List SamplePoint
  metadata : Metadata

namespace Cyclogon

/-- Get a point by index, `null` out of range (Cyclogon.js lines 101-106).
JavaScript indices may be negative, hence `ℤ`. -/
def getPoint (c : Cyclogon) (index : ℤ) : Option SamplePoint :=
  if index < 0 ∨ (c.points.length : ℤ) ≤ index then none
  else some (c.points.getD index.toNat default)

/-- First point or `null` (Cyclogon.js lines 112-114). -/
def getFirstPoint (c : Cyclogon) : Option SamplePoint := c.getPoint 0

/-- Last point or `null` (Cyclogon.js lines 120-122). -/
def getLastPoint (c : Cyclogon) : Option SamplePoint :=
  c.getPoint ((c.points.length : ℤ) - 1)

end Cyclogon

/-- The bounding box of a curve (`getBoundingBox`, Cyclogon.js lines
169-193). -/
structure BBox where
  minX : ℝ
  maxX : ℝ
  minY : ℝ
  maxY : ℝ
  width : ℝ
  height : ℝ
  center : P2

namespace Cyclogon

/-- Bounding box, `null` on an empty curve (Cyclogon.js lines 169-193).
The JavaScript loop starts from `±Infinity`; folding from the first point
over the rest computes the same min/max over a non-empty list. -/
def getBoundingBox (c : Cyclogon) : Option BBox :=
  match c.points with
  | [] => none
  | p :: ps =>
      let minX := ps.foldl (fun m q => min m q.x) p.x
      let maxX := ps.foldl (fun m q => max m q.x) p.x
      let minY := ps.foldl (fun m q => min m q.y) p.y
      let maxY := ps.foldl (fun m q => max m q.y) p.y
      some { minX := minX, maxX := maxX, minY := minY, maxY := maxY,
             width := maxX - minX, height := maxY - minY,
             center := ⟨(minX + maxX) / 2, (minY + maxY) / 2⟩ }

/-- Translate all points (`translate`, Cyclogon.js lines 284-290). -/
def translate (c : Cyclogon) (dx dy : ℝ) : Cyclogon :=
  { c with points := c.points.map fun p =>
      { p with x := p.x + dx, y := p.y + dy } }

/-- Scale all points from the origin (`scale`, Cyclogon.js lines 296-302). -/
def scale (c : Cyclogon) (factor : ℝ) : Cyclogon :=
  { c with points := c.points.map fun p =>
      { p with x := p.x * factor, y := p.y * factor } }

end Cyclogon

/-- The normalization factors returned by `normalize`. -/
structure NormalizationInfo where
  offsetX : ℝ
  offsetY : ℝ
  scale : ℝ

/-- A JavaScript number as produced by the `normalize` division: a finite
real or one of the IEEE-754 non-finite values `NaN`, `+Infinity`,
`-Infinity`.  The curve generators only produce finite values, so the
rest of the model keeps plain `ℝ`; `normalize` is the one curve operation
whose division can leave the finite range, so its result (and the
operations composed with it) are modelled at this level. -/
inductive JSNum where
  | num (x : ℝ)
  | nan
  | posInf
  | negInf

open Classical in
/-- JavaScript division of finite numbers: `0/0` is `NaN` and `x/0` for
`x ≠ 0` is a signed infinity (ℝ has a single zero, so the sign of a zero
divisor is not represented; `normalize` only ever divides by the
non-negative `max(width, height)`). -/
def jsDiv (a b : ℝ) : JSNum :=
  if b = 0 then
    if a = 0 then .nan else if 0 < a then .posInf else .negInf
  else .num (a / b)

open Classical in
/-- JavaScript multiplication of a possibly non-finite number by a finite
factor: `NaN` absorbs, `±Infinity · 0 = NaN`, otherwise infinities keep or
flip sign. -/
def JSNum.mul : JSNum → ℝ → JSNum
  | .num x, f => .num (x * f)
  | .nan, _ => .nan
  | .posInf, f => if 0 < f then .posInf else if f < 0 then .negInf else .nan
  | .negInf, f => if 0 < f then .negInf else if f < 0 then .posInf else .nan

/-- JavaScript addition of a finite number to a possibly non-finite one. -/
def JSNum.add : JSNum → ℝ → JSNum
  | .num x, d => .num (x + d)
  | .nan, _ => .nan
  | .posInf, _ => .posInf
  | .negInf, _ => .negInf

/-- A sample record whose coordinates may be non-finite, as left in
`this._points` by `normalize`; the metadata fields ride along unchanged. -/
structure JSSamplePoint where
  x : JSNum
  y : JSNum
  theta : Option ℝ := none
  sideIndex : Option ℕ := none
  rotation : Option ℝ := none
  pivot : Option P2 := none
  center : Option P2 := none

/-- The injection of a finite sample into the possibly non-finite ones. -/
def SamplePoint.toJS (p : SamplePoint) : JSSamplePoint :=
  ⟨.num p.x, .num p.y, p.theta, p.sideIndex, p.rotation, p.pivot, p.center⟩

/-- Normalize the curve into the unit box (`normalize`, Cyclogon.js lines
308-325): returns the updated point array together with the returned
factors (`null` on an empty curve, whose points are left unchanged).  The
divisions use JavaScript semantics, so when the bounding box is degenerate
(`scale = max(width, height) = 0`, i.e. all points coincide) every
coordinate becomes `0/0 = NaN`. -/
def Cyclogon.normalize (c : Cyclogon) :
    List JSSamplePoint × Option NormalizationInfo :=
  match c.getBoundingBox with
  | none => (c.points.map SamplePoint.toJS, none)
  | some bbox =>
      let scale := max bbox.width bbox.height
      (c.points.map fun p =>
        { p.toJS with x := jsDiv (p.x - bbox.minX) scale,
                      y := jsDiv (p.y - bbox.minY) scale },
       some ⟨bbox.minX, bbox.minY, scale⟩)

/-- The method `scale` (Cyclogon.js lines 296-302) acting on the possibly
non-finite points left in `this._points` by `normalize`. -/
def scalePoints (l : List JSSamplePoint) (factor : ℝ) : List JSSamplePoint :=
  l.map fun p => { p with x := p.x.mul factor, y := p.y.mul factor }

/-- The method `translate` (Cyclogon.js lines 284-290) acting on the
possibly non-finite points left in `this._points` by `normalize`. -/
def translatePoints (l : List JSSamplePoint) (dx dy : ℝ) : List JSSamplePoint :=
  l.map fun p => { p with x := p.x.add dx, y := p.y.add dy }

/-- A one-point curve: a valid degenerate input whose bounding box has
zero extent. -/
def onePointCurve : Cyclogon :=
  { type := CurveType.cycloid
    points := [{ x := 1, y := 2 }]
    metadata := {} }

/-!
## Draw-point model (`DrawPoint.js`, src/unnamed/part_002)

Fields relevant to position and snap state.  The purely visual fields
(visual state, pulse phase, animation progress) do not interact with the
snap bookkeeping and are omitted; the drag trail is kept because
`setPosition`/`moveBy` append to it.
-/

/-- A point of the drag trail (`_addTrailPoint`). -/
structure TrailPoint where
  x : ℝ
  y : ℝ
  alpha : ℝ

/-- The draw-point model: position, drag flag, trail and snap state. -/
structure DrawPoint where
  position : P2
  targetPosition : P2
  isDragging : Bool
  trailPoints : List TrailPoint
  maxTrailPoints : ℕ
  isSnappedToEdge : Bool
  snappedEdgeIndex : Option ℕ
  edgeParameter : ℝ
  snappedAngle : Option ℝ

namespace DrawPoint

/-- Append the current position to the drag trail, capped at
`maxTrailPoints` (`_addTrailPoint`, DrawPoint.js). -/
def addTrailPoint (d : DrawPoint) : DrawPoint :=
  if d.isDragging then
    let trail := d.trailPoints ++ [⟨d.position.x, d.position.y, 1⟩]
    { d with trailPoints := if d.maxTrailPoints < trail.length then trail.drop 1 else trail }
  else d

/-- Clear the snap state (`_clearSnap`, DrawPoint.js lines 324-329). -/
def clearSnap (d : DrawPoint) : DrawPoint :=
  { d with isSnappedToEdge := false, snappedEdgeIndex := none,
           edgeParameter := 0, snappedAngle := none }

/-- Set the position (`setPosition`, DrawPoint.js lines 281-296): update the
target (and the position when `immediate`), extend the trail while
dragging, then clear the snap state. -/
def setPosition (d : DrawPoint) (x y : ℝ) (immediate : Bool) : DrawPoint :=
  let d := { d with targetPosition := ⟨x, y⟩ }
  let d := if immediate then { d with position := ⟨x, y⟩ } else d
  (d.addTrailPoint).clearSnap

/-- Move the position by a delta (`moveBy`, DrawPoint.js lines 303-318). -/
def moveBy (d : DrawPoint) (dx dy : ℝ) (immediate : Bool) : DrawPoint :=
  let d := { d with targetPosition := ⟨d.targetPosition.x + dx, d.targetPosition.y + dy⟩ }
  let d := if immediate then { d with position := d.targetPosition } else d
  (d.addTrailPoint).clearSnap

end DrawPoint

/-!
## Circle model (`Circle.js`, src/unnamed/part_001)

Only the fields used by the generator; construction with `radius ≤ 0`
throws in JavaScript, here the positivity is a hypothesis of the theorems.
-/

/-- The circle model: radius and center. -/
structure Circle where
  radius : ℝ
  center : P2 := ⟨0, 0⟩

/-!
## Cycloid generation (`CyclogonCalculator.generateCycloid`, lines 84-127)
-/

/-- The body of the sampling loop of `generateCycloid` (lines 101-116):
the sample at rotation angle `theta` for radius `R`, draw-point distance
`d` and initial draw-point angle `alpha`. -/
def cycloidSample (R d alpha theta : ℝ) : SamplePoint :=
  let centerX := R * theta
  let centerY := R
  let pointAngle := alpha - theta
  { x := centerX + d * Real.cos pointAngle
    y := centerY + d * Real.sin pointAngle
    theta := some theta
    center := some ⟨centerX, centerY⟩ }

/-- Cycloid generation (`generateCycloid`, CyclogonCalculator.js lines
84-127).  `ppr` is the `pointsPerRadian` option (default 30). -/
def generateCycloid (ppr : ℕ) (circle : Circle) (drawPoint : P2) (cycles : ℝ) :
    Cyclogon :=
  let R := circle.radius
  let d := Real.sqrt (drawPoint.x ^ 2 + drawPoint.y ^ 2)
  let alpha := atan2 drawPoint.y drawPoint.x
  let totalAngle := cycles * (2 * π)
  let numPoints : ℤ := ⌈totalAngle * (ppr : ℝ)⌉
  { type := .cycloid
    points := (List.range (numPoints + 1).toNat).map fun (i : ℕ) =>
      cycloidSample R d alpha (((i : ℝ) / (numPoints : ℝ)) * totalAngle)
    metadata := { cycles := some cycles, totalDistance := some (R * totalAngle),
                  drawPointDistance := some d, drawPointAngle := some alpha } }

/-!
## Regular-polygon model (`Polygon.js`)

Construction with `sides < 3` or `radius ≤ 0` throws in JavaScript; here
those bounds are hypotheses of the theorems.
-/

/-- An edge of the polygon (`Edge` class, Polygon.js lines 16-117).
`endp` is the JavaScript field `end` (a reserved word in Lean). -/
structure Edge where
  start : P2
  endp : P2
  index : ℕ

/-- Outward normal of an edge (`Edge.getNormal`, Polygon.js lines 106-116). -/
def Edge.getNormal (e : Edge) : P2 :=
  let dx := e.endp.x - e.start.x
  let dy := e.endp.y - e.start.y
  let length := Real.sqrt (dx * dx + dy * dy)
  ⟨dy / length, -dx / length⟩

/-- The regular-polygon model: side count, circumscribed radius and
rotation offset (default `-π/2`, vertex up). -/
structure Polygon where
  sides : ℕ
  radius : ℝ
  rotationOffset : ℝ

namespace Polygon

/-- Vertex `i` (`_calculateGeometry`, Polygon.js lines 219-227). -/
def vertex (p : Polygon) (i : ℕ) : P2 :=
  let angle := p.rotationOffset + (i : ℝ) * (2 * π / (p.sides : ℝ))
  ⟨Real.cos angle * p.radius, Real.sin angle * p.radius⟩

/-- The edge list (`_calculateGeometry`, Polygon.js lines 230-234): edge `i`
joins vertex `i` to vertex `(i+1) mod n`. -/
def edges (p : Polygon) : List Edge :=
  (List.range p.sides).map fun (i : ℕ) =>
    ⟨p.vertex i, p.vertex ((i + 1) % p.sides), i⟩

/-- Edge lookup with index normalized modulo `n` (`getEdge`, Polygon.js
lines 313-316; the callers only pass natural indices). -/
def getEdge (p : Polygon) (index : ℕ) : Edge :=
  p.edges.getD (index % p.sides) ⟨⟨0, 0⟩, ⟨0, 0⟩, 0⟩

/-- Side length `2R·sin(π/n)` (`getSideLength`, Polygon.js lines 254-256). -/
def getSideLength (p : Polygon) : ℝ := 2 * p.radius * Real.sin (π / (p.sides : ℝ))

/-- Apothem `R·cos(π/n)` (`getApothem`, Polygon.js lines 263-265). -/
def getApothem (p : Polygon) : ℝ := p.radius * Real.cos (π / (p.sides : ℝ))

/-- Interior angle `(n−2)π/n` (`getInteriorAngle`, Polygon.js 281-283). -/
def getInteriorAngle (p : Polygon) : ℝ := ((p.sides : ℝ) - 2) * π / (p.sides : ℝ)

/-- Exterior angle `2π/n` (`getExteriorAngle`, Polygon.js lines 290-292). -/
def getExteriorAngle (p : Polygon) : ℝ := 2 * π / (p.sides : ℝ)

end Polygon

/-!
## Cyclogon generation (`CyclogonCalculator.generateCyclogon`, lines 145-253)
-/

/-- Find the edge whose outward normal points most nearly straight down
(`_findBottomSideIndex`, CyclogonCalculator.js lines 259-275).  The
accumulator `none` plays the role of the initial `maxDot = -Infinity`
(the first comparison always wins). -/
def findBottomSideIndex (polygon : Polygon) : ℕ :=
  (((List.range polygon.sides).foldl
      (fun (acc : Option (ℝ × ℕ)) (i : ℕ) =>
        let dot := -(polygon.getEdge i).getNormal.y
        match acc with
        | none => some (dot, i)
        | some (m, b) => if m < dot then some (dot, i) else some (m, b))
      none).map Prod.snd).getD 0

/-- The angle of an edge's normal (`_getEdgeNormalAngle`,
CyclogonCalculator.js lines 281-285). -/
def getEdgeNormalAngle (polygon : Polygon) (edgeIndex : ℕ) : ℝ :=
  let normal := (polygon.getEdge edgeIndex).getNormal
  atan2 normal.y normal.x

/-- The body of the inner sampling loop of `generateCyclogon`
(lines 191-235): the sample for sub-step `p` of side `sideIndex`, given the
running pivot x-coordinate and cumulative polygon rotation.
`centerDistance` is the circumscribed radius (`_getDistancePivotToCenter`)
and `centerAngleFromPivot` is `π/2 + (π − interiorAngle)/2`
(`_getCenterAngleFromPivot`). -/
def cyclogonSamplePoint (pps : ℕ) (polygon : Polygon) (adjustedDrawPoint : P2)
    (sideIndex : ℕ) (pivotX polygonRotation : ℝ) (p : ℕ) : SamplePoint :=
  let t : ℝ := (p : ℝ) / (pps : ℝ)
  let localRotation := t * polygon.getExteriorAngle
  let currentTotalRotation := polygonRotation + localRotation
  let centerDistance := polygon.radius
  let centerAngleFromPivot := π / 2 + (π - polygon.getInteriorAngle) / 2
  let rotatedCenterAngle := centerAngleFromPivot - localRotation
  let centerX := pivotX + centerDistance * Real.cos rotatedCenterAngle
  let centerY := 0 + centerDistance * Real.sin rotatedCenterAngle
  let rotatedDrawPointAngle :=
    atan2 adjustedDrawPoint.y adjustedDrawPoint.x - currentTotalRotation
  let drawPointDist :=
    Real.sqrt (adjustedDrawPoint.x ^ 2 + adjustedDrawPoint.y ^ 2)
  { x := centerX + drawPointDist * Real.cos rotatedDrawPointAngle
    y := centerY + drawPointDist * Real.sin rotatedDrawPointAngle
    sideIndex := some sideIndex
    rotation := some currentTotalRotation
    pivot := some ⟨pivotX, 0⟩
    center := some ⟨centerX, centerY⟩ }

open Classical in
/-- The samples pushed for one side (`generateCyclogon` loop body, lines
176-235): the final side of a non-integer `cycles·n` is a partial arc whose
sub-sample count is scaled by the fractional remainder; the boundary sample
`p = pointsThisSide` is skipped on every side but the last. -/
def cyclogonSideSamples (pps : ℕ) (polygon : Polygon) (adjustedDrawPoint : P2)
    (cycles : ℝ) (totalSides : ℤ) (sideIndex : ℕ)
    (pivotX polygonRotation : ℝ) : List SamplePoint :=
  let fractionOfLastSide : ℝ :=
    if (sideIndex : ℤ) = totalSides - 1 ∧ jsMod1 (cycles * (polygon.sides : ℝ)) ≠ 0
    then jsMod1 (cycles * (polygon.sides : ℝ)) else 1
  let pointsThisSide : ℤ := ⌈(pps : ℝ) * fractionOfLastSide⌉
  let ps : List ℕ :=
    if (sideIndex : ℤ) < totalSides - 1 then List.range pointsThisSide.toNat
    else List.range (pointsThisSide.toNat + 1)
  ps.map (cyclogonSamplePoint pps polygon adjustedDrawPoint sideIndex pivotX
    polygonRotation)

/-- Cyclogon generation (`generateCyclogon`, CyclogonCalculator.js lines
145-253).  `pps` is the `pointsPerSide` option (default 50).  The fold
mirrors the outer loop: the pivot x-coordinate starts at `sideLength` and
advances by `sideLength` per side, the cumulative rotation starts at 0 and
advances by the exterior angle per side. -/
def generateCyclogon (pps : ℕ) (polygon : Polygon) (drawPoint : P2)
    (cycles : ℝ) : Cyclogon :=
  let n := polygon.sides
  let sideLength := polygon.getSideLength
  let exteriorAngle := polygon.getExteriorAngle
  let bottomSideIndex := findBottomSideIndex polygon
  let currentNormalAngle := getEdgeNormalAngle polygon bottomSideIndex
  let targetNormalAngle := -(π / 2)
  let adjustmentRotation := targetNormalAngle - currentNormalAngle
  let adjustedDrawPoint := rotatePoint drawPoint ⟨0, 0⟩ adjustmentRotation
  let totalSides : ℤ := ⌈cycles * (n : ℝ)⌉
  let res := (List.range totalSides.toNat).foldl
    (fun (acc : List SamplePoint × ℝ × ℝ) (sideIndex : ℕ) =>
      (acc.1 ++ cyclogonSideSamples pps polygon adjustedDrawPoint cycles
          totalSides sideIndex acc.2.1 acc.2.2,
       acc.2.1 + sideLength, acc.2.2 + exteriorAngle))
    ([], sideLength, 0)
  { type := .cyclogon
    points := res.1
    metadata := { cycles := some cycles, sides := some n,
                  totalDistance := some ((totalSides : ℝ) * sideLength),
                  sideLength := some sideLength,
                  exteriorAngle := some exteriorAngle,
                  adjustmentRotation := some adjustmentRotation } }

/-!
## Shape dispatch (`CyclogonCalculator.generate`, lines 58-66)
-/

/-- The dynamic argument of `generate`: a `Circle`, a `Polygon`, or any
other JavaScript value (`other`), which the method rejects. -/
inductive ShapeInput where
  | circle (c : Circle)
  | polygon (p : Polygon)
  | other

/-- Dispatch on the shape kind (`generate`, CyclogonCalculator.js lines
58-66).  The only `throw` in the generator is the unsupported-shape branch;
no validation of `cycles` is performed. -/
def generate (ppr pps : ℕ) (shape : ShapeInput) (drawPoint : P2)
    (cycles : ℝ) : Except String Cyclogon :=
  match shape with
  | .circle c => .ok (generateCycloid ppr c drawPoint cycles)
  | .polygon p => .ok (generateCyclogon pps p drawPoint cycles)
  | .other => .error "Forma no soportada. Use Circle o Polygon."

/-- Proof helper: the samples of the sides `l` of the outer loop of
`generateCyclogon`, starting from pivot x-coordinate `pivotX` and
cumulative rotation `rot`. -/
def cyclogonSidesFrom (pps : ℕ) (polygon : Polygon) (adj : P2) (cycles : ℝ)
    (totalSides : ℤ) (l : List ℕ) (pivotX rot : ℝ) : List SamplePoint :=
  match l with
  | [] => []
  | s :: rest =>
      cyclogonSideSamples pps polygon adj cycles totalSides s pivotX rot ++
        cyclogonSidesFrom pps polygon adj cycles totalSides rest
          (pivotX + polygon.getSideLength) (rot + polygon.getExteriorAngle)

/-- Proof helper: the adjusted draw point used by `generateCyclogon`. -/
def adjustedPoint (polygon : Polygon) (drawPoint : P2) : P2 :=
  rotatePoint drawPoint ⟨0, 0⟩
    (-(π / 2) - getEdgeNormalAngle polygon (findBottomSideIndex polygon))

/-!
## Curve simplification (`CyclogonCalculator.simplify`, lines 413-484)
-/

open Classical in
/-- Perpendicular distance from a point to a segment, clamped to the
segment (`_perpendicularDistance`, CyclogonCalculator.js lines 460-484). -/
def perpendicularDistance (point lineStart lineEnd : SamplePoint) : ℝ :=
  let dx := lineEnd.x - lineStart.x
  let dy := lineEnd.y - lineStart.y
  let lengthSquared := dx * dx + dy * dy
  if lengthSquared = 0 then
    Real.sqrt ((point.x - lineStart.x) ^ 2 + (point.y - lineStart.y) ^ 2)
  else
    let t := max 0 (min 1
      (((point.x - lineStart.x) * dx + (point.y - lineStart.y) * dy) /
        lengthSquared))
    let projX := lineStart.x + t * dx
    let projY := lineStart.y + t * dy
    Real.sqrt ((point.x - projX) ^ 2 + (point.y - projY) ^ 2)

open Classical in
/-- One step of the interior scan of `_douglasPeucker` (lines 437-443):
update the running maximum distance and its index. -/
def dpMaxStep (first last : SamplePoint) (points : List SamplePoint)
    (acc : ℝ × ℕ) (i : ℕ) : ℝ × ℕ :=
  let d := perpendicularDistance (points.getD i default) first last
  if acc.1 < d then (d, i) else acc

/-- The interior scan of `_douglasPeucker` (lines 431-443): the maximum
perpendicular distance of the interior points `1 .. length − 2` from the
first-to-last segment, with the index attaining it (`(0, 0)` when no
interior point exceeds the initial `maxDistance = 0`). -/
def dpMax (points : List SamplePoint) : ℝ × ℕ :=
  (List.range' 1 (points.length - 2)).foldl
    (dpMaxStep (points.headD default) (points.getLastD default) points) (0, 0)

open Classical in
/-- The recursion of `_douglasPeucker` (lines 427-454).  The JavaScript
function recurses directly; the `fuel` argument, set by `simplify` to the
point count (an upper bound on the recursion depth for `tolerance ≥ 0`),
makes the recursion structural. -/
def douglasPeuckerRec (fuel : ℕ) (points : List SamplePoint)
    (tolerance : ℝ) : List SamplePoint :=
  match fuel with
  | 0 => points
  | fuel + 1 =>
      if points.length < 3 then points
      else
        let first := points.headD default
        let last := points.getLastD default
        let md := dpMax points
        if tolerance < md.1 then
          let left := douglasPeuckerRec fuel (points.take (md.2 + 1)) tolerance
          let right := douglasPeuckerRec fuel (points.drop md.2) tolerance
          left.dropLast ++ right
        else [first, last]

/-- Curve simplification by Douglas-Peucker (`simplify`,
CyclogonCalculator.js lines 413-421): curves of fewer than 3 points are
returned unchanged. -/
def simplify (c : Cyclogon) (tolerance : ℝ) : List SamplePoint :=
  let points := c.points
  if points.length < 3 then points
  else douglasPeuckerRec points.length points tolerance

/-- Proof helper: the consecutive segments of a polyline. -/
def segsOf : List SamplePoint → List (SamplePoint × SamplePoint)
  | a :: b :: rest => (a, b) :: segsOf (b :: rest)
  | _ => []

/-- A small concrete three-point curve, used to instantiate theorems. -/
def witnessCurve : Cyclogon :=
  { type := CurveType.cycloid
    points := [{ x := 0, y := 0 }, { x := 1, y := 1 }, { x := 2, y := 0 }]
    metadata := {} }

/-- The `sideIndex` recorded on the last sample of a curve. -/
def Cyclogon.lastSideIndex (c : Cyclogon) : Option ℕ :=
  c.points.getLast?.bind fun s => s.sideIndex

/-- The cumulative rotation recorded on the last sample of a curve. -/
def Cyclogon.lastRotation (c : Cyclogon) : Option ℝ :=
  c.points.getLast?.bind fun s => s.rotation

/-- The pivot recorded on the last sample of a curve. -/
def Cyclogon.lastPivot (c : Cyclogon) : Option P2 :=
  c.points.getLast?.bind fun s => s.pivot

end CyclogonsGraph

end

namespace CyclogonsGraph

/-- Claim C9: every call to `setPosition` or `moveBy`, from any snap state,
leaves the draw point in the Free snap state: `isSnappedToEdge` is false,
`snappedEdgeIndex` and `snappedAngle` are null and `edgeParameter` is 0. -/
theorem drawPoint_free_after_move (d : DrawPoint) (x y dx dy : ℝ) (imm imm' : Bool) :
    ((d.setPosition x y imm).isSnappedToEdge = false ∧
      (d.setPosition x y imm).snappedEdgeIndex = none ∧
      (d.setPosition x y imm).edgeParameter = 0 ∧
      (d.setPosition x y imm).snappedAngle = none) ∧
    ((d.moveBy dx dy imm').isSnappedToEdge = false ∧
      (d.moveBy dx dy imm').snappedEdgeIndex = none ∧
      (d.moveBy dx dy imm').edgeParameter = 0 ∧
      (d.moveBy dx dy imm').snappedAngle = none) := by
  refine ⟨⟨?_, ?_, ?_, ?_⟩, ⟨?_, ?_, ?_, ?_⟩⟩ <;>
    simp [DrawPoint.setPosition, DrawPoint.moveBy, DrawPoint.clearSnap]

/-- Claim C10: `getPoint` returns null for every index outside
`[0, pointCount)`, and consequently `getFirstPoint` and `getLastPoint`
return null on an empty curve. -/
theorem getPoint_out_of_range (c : Cyclogon) (i : ℤ)
    (h : i < 0 ∨ (c.points.length : ℤ) ≤ i) :
    c.getPoint i = none ∧
    (c.points = [] → c.getFirstPoint = none ∧ c.getLastPoint = none) := by
  constructor
  · simp [Cyclogon.getPoint, h]
  · intro hsize
    constructor
    · simp [Cyclogon.getFirstPoint, Cyclogon.getPoint, hsize]
    · simp [Cyclogon.getLastPoint, Cyclogon.getPoint, hsize]

/-- Witness for C10 at a concrete curve and index. -/
theorem getPoint_out_of_range_witness :
    ((5 : ℤ) < 0 ∨ (({ type := .cycloid, points := [], metadata := {} } :
        Cyclogon).points.length : ℤ) ≤ 5) ∧
    ({ type := .cycloid, points := [], metadata := {} } : Cyclogon).getPoint 5 = none ∧
    (({ type := .cycloid, points := [], metadata := {} } : Cyclogon).points = [] →
      ({ type := .cycloid, points := [], metadata := {} } : Cyclogon).getFirstPoint = none ∧
      ({ type := .cycloid, points := [], metadata := {} } : Cyclogon).getLastPoint = none) := by
  refine ⟨Or.inr (by simp), getPoint_out_of_range _ 5 (Or.inr (by simp))⟩

/-- Helper: the draw-point distance for the trace point `(0, 1)` is 1. -/
lemma sqrt_zero_one : Real.sqrt ((0:ℝ) ^ 2 + 1 ^ 2) = 1 := by
  norm_num

/-- Helper: the initial angle of the trace point `(0, 1)` is `π/2`. -/
lemma atan2_one_zero : atan2 1 0 = π / 2 := by
  have h : (⟨0, 1⟩ : ℂ) = Complex.I := rfl
  rw [atan2, h, Complex.arg_I]

/-- Helper: every sample of `generateCycloid` is `cycloidSample` at some
angle. -/
lemma mem_generateCycloid {ppr : ℕ} {circle : Circle} {p : P2} {c : ℝ}
    {s : SamplePoint} (hs : s ∈ (generateCycloid ppr circle p c).points) :
    ∃ t, s = cycloidSample circle.radius (Real.sqrt (p.x ^ 2 + p.y ^ 2))
      (atan2 p.y p.x) t := by
  simp only [generateCycloid, List.mem_map, List.mem_range] at hs
  obtain ⟨i, -, rfl⟩ := hs
  exact ⟨_, rfl⟩

/-- Helper: the coordinates and recorded angle of `cycloidSample`. -/
lemma cycloidSample_eq (R d alpha t : ℝ) :
    (cycloidSample R d alpha t).theta = some t ∧
    (cycloidSample R d alpha t).x = R * t + d * Real.cos (alpha - t) ∧
    (cycloidSample R d alpha t).y = R + d * Real.sin (alpha - t) := by
  refine ⟨rfl, rfl, rfl⟩

/-- Helper: the value of the sampling formula at `θ = π` for `R = 1`,
`d = 1`, `α = π/2`. -/
lemma cycloidSample_at_pi :
    (cycloidSample 1 1 (π / 2) π).x = π ∧ (cycloidSample 1 1 (π / 2) π).y = 0 := by
  have hc : π / 2 - π = -(π / 2) := by ring
  constructor
  · show 1 * π + 1 * Real.cos (π / 2 - π) = π
    rw [hc, Real.cos_neg, Real.cos_pi_div_two]; ring
  · show 1 + 1 * Real.sin (π / 2 - π) = 0
    rw [hc, Real.sin_neg, Real.sin_pi_div_two]; ring

/-- Claim C1: every sample of `generateCycloid` satisfies the closed-form
equations `x = R·θ + d·cos(α − θ)` and `y = R + d·sin(α − θ)` at its
recorded angle `θ`; in particular for `R = 1`, trace point `(0, 1)`,
`cycles = 1`: the first sample has `θ = 0` and coordinates `(0, 2)`, the
sampling formula at `θ = π` gives `(π, 0)`, and any sample recorded at
`θ = π` has coordinates `(π, 0)`. -/
theorem cycloid_closed_form (ppr : ℕ) (circle : Circle) (p : P2) (c : ℝ)
    (hR : 0 < circle.radius) (hc : 0 < c) :
    (∀ s ∈ (generateCycloid ppr circle p c).points, ∃ t, s.theta = some t ∧
      s.x = circle.radius * t +
        Real.sqrt (p.x ^ 2 + p.y ^ 2) * Real.cos (atan2 p.y p.x - t) ∧
      s.y = circle.radius +
        Real.sqrt (p.x ^ 2 + p.y ^ 2) * Real.sin (atan2 p.y p.x - t)) ∧
    (∃ s0, (generateCycloid 30 ⟨1, ⟨0, 0⟩⟩ ⟨0, 1⟩ 1).points.head? = some s0 ∧
      s0.theta = some 0 ∧ s0.x = 0 ∧ s0.y = 2) ∧
    ((cycloidSample 1 1 (π / 2) π).x = π ∧ (cycloidSample 1 1 (π / 2) π).y = 0) ∧
    (∀ s ∈ (generateCycloid 30 ⟨1, ⟨0, 0⟩⟩ ⟨0, 1⟩ 1).points,
      s.theta = some π → s.x = π ∧ s.y = 0) := by
  refine ⟨?_, ?_, cycloidSample_at_pi, ?_⟩
  · intro s hs
    obtain ⟨t, rfl⟩ := mem_generateCycloid hs
    exact ⟨t, cycloidSample_eq _ _ _ _⟩
  · refine ⟨cycloidSample 1 1 (π / 2) 0, ?_, rfl, ?_, ?_⟩
    · have h1 : (0:ℝ) < 1 * (2 * π) * ((30:ℕ) : ℝ) := by positivity
      have h2 : (0:ℤ) ≤ ⌈(1:ℝ) * (2 * π) * ((30:ℕ) : ℝ)⌉ := (Int.ceil_pos.2 h1).le
      simp only [generateCycloid]
      rw [show (⌈(1:ℝ) * (2 * π) * ((30:ℕ) : ℝ)⌉ + 1).toNat =
            ⌈(1:ℝ) * (2 * π) * ((30:ℕ) : ℝ)⌉.toNat + 1 by omega,
        List.range_succ_eq_map]
      simp only [List.map_cons, List.head?_cons, Option.some.injEq]
      norm_num [sqrt_zero_one, atan2_one_zero]
    · show (1:ℝ) * 0 + 1 * Real.cos (π / 2 - 0) = 0
      rw [sub_zero, Real.cos_pi_div_two]; ring
    · show (1:ℝ) + 1 * Real.sin (π / 2 - 0) = 2
      rw [sub_zero, Real.sin_pi_div_two]; ring
  · intro s hs hth
    obtain ⟨t, rfl⟩ := mem_generateCycloid hs
    simp only [cycloidSample, Option.some.injEq] at hth
    subst hth
    have hx : (cycloidSample (⟨1, ⟨0, 0⟩⟩ : Circle).radius
        (Real.sqrt ((⟨0, 1⟩ : P2).x ^ 2 + (⟨0, 1⟩ : P2).y ^ 2))
        (atan2 (⟨0, 1⟩ : P2).y (⟨0, 1⟩ : P2).x) π) =
        cycloidSample 1 1 (π / 2) π := by
      show cycloidSample 1 (Real.sqrt ((0:ℝ) ^ 2 + 1 ^ 2)) (atan2 1 0) π = _
      rw [sqrt_zero_one, atan2_one_zero]
    rw [hx]
    exact cycloidSample_at_pi

/-- Witness for C1 at `R = 1`, trace point `(0, 1)`, `cycles = 1`. -/
theorem cycloid_closed_form_witness :
    ((0:ℝ) < (⟨1, ⟨0, 0⟩⟩ : Circle).radius ∧ (0:ℝ) < 1) ∧
    (∃ s0, (generateCycloid 30 ⟨1, ⟨0, 0⟩⟩ ⟨0, 1⟩ 1).points.head? = some s0 ∧
      s0.theta = some 0 ∧ s0.x = 0 ∧ s0.y = 2) :=
  ⟨⟨one_pos, one_pos⟩,
    (cycloid_closed_form 30 ⟨1, ⟨0, 0⟩⟩ ⟨0, 1⟩ 1 one_pos one_pos).2.1⟩

/-- Helper: the number of samples produced by `generateCycloid` is
`⌈cycles·2π·pointsPerRadian⌉ + 1` (the loop at lines 101-116 runs from
`i = 0` to `i = numPoints` inclusive). -/
lemma generateCycloid_length (ppr : ℕ) (circle : Circle) (p : P2) (c : ℝ)
    (hc : 0 < c) (hppr : 0 < ppr) :
    ((generateCycloid ppr circle p c).points.length : ℤ) =
      ⌈c * (2 * π) * (ppr : ℝ)⌉ + 1 := by
  have h1 : (0:ℝ) < c * (2 * π) * (ppr : ℝ) := by positivity
  have h2 : (0:ℤ) ≤ ⌈c * (2 * π) * (ppr : ℝ)⌉ := (Int.ceil_pos.2 h1).le
  simp only [generateCycloid, List.length_map, List.length_range]
  omega

/-- Claim C3 (amended): `generateCycloid` produces exactly
`⌈totalAngle·pointsPerRadian⌉ + 1` samples, where `totalAngle = cycles·2π`
(one more than the spec states: the loop includes both `θ = 0` and
`θ = totalAngle`). -/
theorem cycloid_sample_count (ppr : ℕ) (circle : Circle) (p : P2) (c : ℝ)
    (hc : 0 < c) (hppr : 0 < ppr) :
    ((generateCycloid ppr circle p c).points.length : ℤ) =
      ⌈c * (2 * π) * (ppr : ℝ)⌉ + 1 :=
  generateCycloid_length ppr circle p c hc hppr

/-- Witness for C3 (amended) at `R = 1`, trace point `(0, 1)`,
`cycles = 1`, default resolution. -/
theorem cycloid_sample_count_witness :
    ((0:ℝ) < 1 ∧ (0:ℕ) < 30) ∧
    ((generateCycloid 30 ⟨1, ⟨0, 0⟩⟩ ⟨0, 1⟩ 1).points.length : ℤ) =
      ⌈(1:ℝ) * (2 * π) * ((30:ℕ) : ℝ)⌉ + 1 :=
  ⟨⟨one_pos, by norm_num⟩,
    cycloid_sample_count 30 ⟨1, ⟨0, 0⟩⟩ ⟨0, 1⟩ 1 one_pos (by norm_num)⟩

/-- Counterexample for C3 as stated: with `R = 1`, trace point `(0, 1)`,
`cycles = 1` and the default 30 points per radian, the number of samples is
not `⌈totalAngle·pointsPerRadian⌉`. -/
theorem cycloid_sample_count_counterexample :
    ¬ (((generateCycloid 30 ⟨1, ⟨0, 0⟩⟩ ⟨0, 1⟩ 1).points.length : ℤ) =
      ⌈(1:ℝ) * (2 * π) * ((30:ℕ) : ℝ)⌉) := by
  rw [generateCycloid_length 30 ⟨1, ⟨0, 0⟩⟩ ⟨0, 1⟩ 1 one_pos (by norm_num)]
  omega

/-!
## Closed form of the cyclogon outer loop

Proof helper: the outer loop of `generateCyclogon` threads the pivot
x-coordinate and the cumulative rotation through a fold; `cyclogonSidesFrom`
is its natural recursion and the lemmas below give the positional closed
form (side `s` has pivot `sideLength·(s+1)` and base rotation
`exteriorAngle·s`).
-/

/-- Proof helper: the empty-list equation of `cyclogonSidesFrom`. -/
lemma cyclogonSidesFrom_nil (pps : ℕ) (polygon : Polygon) (adj : P2)
    (cycles : ℝ) (T : ℤ) (px r : ℝ) :
    cyclogonSidesFrom pps polygon adj cycles T [] px r = [] := rfl

/-- Proof helper: the cons equation of `cyclogonSidesFrom`. -/
lemma cyclogonSidesFrom_cons (pps : ℕ) (polygon : Polygon) (adj : P2)
    (cycles : ℝ) (T : ℤ) (s : ℕ) (rest : List ℕ) (px r : ℝ) :
    cyclogonSidesFrom pps polygon adj cycles T (s :: rest) px r =
      cyclogonSideSamples pps polygon adj cycles T s px r ++
        cyclogonSidesFrom pps polygon adj cycles T rest
          (px + polygon.getSideLength) (r + polygon.getExteriorAngle) := rfl

/-- Proof helper: the outer fold of `generateCyclogon` computes
`cyclogonSidesFrom`. -/
lemma cyclogon_foldl_eq (pps : ℕ) (polygon : Polygon) (adj : P2) (cycles : ℝ)
    (T : ℤ) (l : List ℕ) (acc0 : List SamplePoint) (px r : ℝ) :
    (l.foldl (fun (acc : List SamplePoint × ℝ × ℝ) (sideIndex : ℕ) =>
        (acc.1 ++ cyclogonSideSamples pps polygon adj cycles T sideIndex
            acc.2.1 acc.2.2,
         acc.2.1 + polygon.getSideLength, acc.2.2 + polygon.getExteriorAngle))
      (acc0, px, r)).1 = acc0 ++ cyclogonSidesFrom pps polygon adj cycles T l px r := by
  induction l generalizing acc0 px r with
  | nil => simp [cyclogonSidesFrom_nil]
  | cons s rest ih =>
      simp only [List.foldl_cons, cyclogonSidesFrom_cons]
      rw [ih, List.append_assoc]

/-- Proof helper: positional closed form of `cyclogonSidesFrom` over a
contiguous index range. -/
lemma cyclogonSidesFrom_range' (pps : ℕ) (polygon : Polygon) (adj : P2)
    (cycles : ℝ) (T : ℤ) (k a : ℕ) :
    cyclogonSidesFrom pps polygon adj cycles T (List.range' a k)
        (polygon.getSideLength * ((a : ℝ) + 1)) (polygon.getExteriorAngle * (a : ℝ)) =
      ((List.range' a k).map fun (s : ℕ) =>
        cyclogonSideSamples pps polygon adj cycles T s
          (polygon.getSideLength * ((s : ℝ) + 1))
          (polygon.getExteriorAngle * (s : ℝ))).flatten := by
  induction k generalizing a with
  | zero => simp [cyclogonSidesFrom_nil]
  | succ k ih =>
      rw [List.range'_succ]
      simp only [cyclogonSidesFrom_cons, List.map_cons, List.flatten_cons]
      congr 1
      have h1 : polygon.getSideLength * ((a : ℝ) + 1) + polygon.getSideLength =
          polygon.getSideLength * (((a + 1 : ℕ) : ℝ) + 1) := by push_cast; ring
      have h2 : polygon.getExteriorAngle * (a : ℝ) + polygon.getExteriorAngle =
          polygon.getExteriorAngle * ((a + 1 : ℕ) : ℝ) := by push_cast; ring
      rw [h1, h2, ih]

/-- Proof helper: the point list of `generateCyclogon` in closed form: the
concatenation over sides `s < ⌈cycles·n⌉` of the side-`s` samples at pivot
`sideLength·(s+1)` and base rotation `exteriorAngle·s`. -/
lemma generateCyclogon_points (pps : ℕ) (polygon : Polygon) (dp : P2)
    (cycles : ℝ) :
    (generateCyclogon pps polygon dp cycles).points =
      ((List.range ⌈cycles * (polygon.sides : ℝ)⌉.toNat).map fun (s : ℕ) =>
        cyclogonSideSamples pps polygon (adjustedPoint polygon dp) cycles
          ⌈cycles * (polygon.sides : ℝ)⌉ s
          (polygon.getSideLength * ((s : ℝ) + 1))
          (polygon.getExteriorAngle * (s : ℝ))).flatten := by
  simp only [generateCyclogon]
  rw [cyclogon_foldl_eq, List.nil_append, List.range_eq_range']
  have h := cyclogonSidesFrom_range' pps polygon (adjustedPoint polygon dp)
    cycles ⌈cycles * (polygon.sides : ℝ)⌉ ⌈cycles * (polygon.sides : ℝ)⌉.toNat 0
  norm_num at h
  rw [← List.range_eq_range'] at h
  rw [← List.range_eq_range']
  exact h

/-- Claim C5: for every polygon with `n ≥ 3` sides and positive radius and
every positive integer cycle count `k`, the metadata `totalDistance` equals
`k·n·sideLength` with `sideLength = 2·radius·sin(π/n)`. -/
theorem cyclogon_total_distance (pps : ℕ) (polygon : Polygon) (dp : P2)
    (k : ℕ) (hn : 3 ≤ polygon.sides) (hr : 0 < polygon.radius) (hk : 1 ≤ k) :
    (generateCyclogon pps polygon dp (k : ℝ)).metadata.totalDistance =
      some ((k : ℝ) * (polygon.sides : ℝ) *
        (2 * polygon.radius * Real.sin (π / (polygon.sides : ℝ)))) := by
  simp only [generateCyclogon, Polygon.getSideLength]
  congr 1
  rw [show (k : ℝ) * (polygon.sides : ℝ) = ((k * polygon.sides : ℕ) : ℝ) by
    push_cast; ring]
  rw [Int.ceil_natCast]
  push_cast
  ring

/-- Witness for C5: a triangle of radius 1 rolled for one cycle. -/
theorem cyclogon_total_distance_witness :
    (3 ≤ (⟨3, 1, -(π/2)⟩ : Polygon).sides ∧ (0:ℝ) < (⟨3, 1, -(π/2)⟩ : Polygon).radius ∧
      (1:ℕ) ≤ 1) ∧
    (generateCyclogon 50 ⟨3, 1, -(π/2)⟩ ⟨0, 1⟩ ((1:ℕ) : ℝ)).metadata.totalDistance =
      some (((1:ℕ) : ℝ) * (((⟨3, 1, -(π/2)⟩ : Polygon).sides : ℕ) : ℝ) *
        (2 * (⟨3, 1, -(π/2)⟩ : Polygon).radius *
          Real.sin (π / (((⟨3, 1, -(π/2)⟩ : Polygon).sides : ℕ) : ℝ)))) :=
  ⟨⟨le_refl 3, one_pos, le_refl 1⟩,
    cyclogon_total_distance 50 ⟨3, 1, -(π/2)⟩ ⟨0, 1⟩ 1 (le_refl 3) one_pos (le_refl 1)⟩

/-- Counterexample for C2 as stated: with a circle of radius 1 and
`cycles = -1 ≤ 0`, `generate` does not fail — it returns a curve. -/
theorem generate_no_validation_counterexample :
    generate 30 50 (ShapeInput.circle ⟨1, ⟨0, 0⟩⟩) ⟨0, 1⟩ (-1) =
      Except.ok (generateCycloid 30 ⟨1, ⟨0, 0⟩⟩ ⟨0, 1⟩ (-1)) := rfl

/-- Claim C2 (amended): `generate` performs no validation of `cycles` and
raises no InvalidParameter error; for a circle with `cycles ≤ -1` and for a
polygon with `cycles ≤ 0` it returns successfully a curve with no points. -/
theorem generate_nonpositive_cycles (ppr pps : ℕ) (circle : Circle)
    (polygon : Polygon) (dp : P2) (c c' : ℝ)
    (hppr : 1 ≤ ppr) (hc : c ≤ -1) (hc' : c' ≤ 0) :
    generate ppr pps (ShapeInput.circle circle) dp c =
      Except.ok (generateCycloid ppr circle dp c) ∧
    (generateCycloid ppr circle dp c).points = [] ∧
    generate ppr pps (ShapeInput.polygon polygon) dp c' =
      Except.ok (generateCyclogon pps polygon dp c') ∧
    (generateCyclogon pps polygon dp c').points = [] := by
  refine ⟨rfl, ?_, rfl, ?_⟩
  · have hppr' : (1:ℝ) ≤ (ppr : ℝ) := by exact_mod_cast hppr
    have hX : (1:ℝ) ≤ 2 * π * (ppr : ℝ) := by
      nlinarith [Real.pi_gt_three, hppr']
    have hx : c * (2 * π) * (ppr : ℝ) ≤ -1 := by
      nlinarith [hX, hc]
    have hceil : ⌈c * (2 * π) * (ppr : ℝ)⌉ ≤ -1 := by
      rw [show (-1 : ℤ) = ((-1 : ℤ) : ℤ) from rfl]
      exact Int.ceil_le.2 (by exact_mod_cast hx)
    have : (⌈c * (2 * π) * (ppr : ℝ)⌉ + 1).toNat = 0 := by omega
    simp only [generateCycloid, this, List.range_zero, List.map_nil]
  · have hx : c' * ((polygon.sides : ℕ) : ℝ) ≤ 0 :=
      mul_nonpos_of_nonpos_of_nonneg hc' (by positivity)
    have hceil : ⌈c' * ((polygon.sides : ℕ) : ℝ)⌉ ≤ 0 := Int.ceil_le.2 (by exact_mod_cast hx)
    have ht : ⌈c' * ((polygon.sides : ℕ) : ℝ)⌉.toNat = 0 := by omega
    simp only [generateCyclogon, ht, List.range_zero, List.foldl_nil]

/-- Witness for C2 (amended) at `cycles = -1` (circle) and `cycles = 0`
(square). -/
theorem generate_nonpositive_cycles_witness :
    ((1:ℕ) ≤ 30 ∧ (-1:ℝ) ≤ -1 ∧ (0:ℝ) ≤ 0) ∧
    generate 30 50 (ShapeInput.circle ⟨1, ⟨0, 0⟩⟩) ⟨0, 1⟩ (-1) =
      Except.ok (generateCycloid 30 ⟨1, ⟨0, 0⟩⟩ ⟨0, 1⟩ (-1)) ∧
    (generateCycloid 30 ⟨1, ⟨0, 0⟩⟩ ⟨0, 1⟩ (-1)).points = [] ∧
    generate 30 50 (ShapeInput.polygon ⟨4, 1, -(π/2)⟩) ⟨0, 1⟩ 0 =
      Except.ok (generateCyclogon 50 ⟨4, 1, -(π/2)⟩ ⟨0, 1⟩ 0) ∧
    (generateCyclogon 50 ⟨4, 1, -(π/2)⟩ ⟨0, 1⟩ 0).points = [] :=
  ⟨⟨by norm_num, le_refl _, le_refl _⟩,
    generate_nonpositive_cycles 30 50 ⟨1, ⟨0, 0⟩⟩ ⟨4, 1, -(π/2)⟩ ⟨0, 1⟩ (-1) 0
      (by norm_num) (le_refl _) (le_refl _)⟩

/-- Proof helper: a side that is not the last emits `pointsPerSide` samples,
`p = 0 .. pointsPerSide − 1` (the boundary sample is skipped). -/
lemma cyclogonSideSamples_nonlast (pps : ℕ) (polygon : Polygon) (adj : P2)
    (cycles : ℝ) (T : ℤ) (s : ℕ) (px r : ℝ) (h : (s : ℤ) < T - 1) :
    cyclogonSideSamples pps polygon adj cycles T s px r =
      (List.range pps).map (cyclogonSamplePoint pps polygon adj s px r) := by
  have hne : ¬((s : ℤ) = T - 1 ∧ jsMod1 (cycles * (polygon.sides : ℝ)) ≠ 0) :=
    fun hand => absurd hand.1 (by omega)
  simp only [cyclogonSideSamples]
  rw [if_pos h, if_neg hne, mul_one, Int.ceil_natCast, Int.toNat_natCast]

/-- Proof helper: the last side of a non-integer `cycles·n` emits
`⌈pointsPerSide·frac⌉ + 1` samples, `frac` the fractional remainder. -/
lemma cyclogonSideSamples_last (pps : ℕ) (polygon : Polygon) (adj : P2)
    (cycles : ℝ) (T : ℤ) (s : ℕ) (px r : ℝ) (h : (s : ℤ) = T - 1)
    (hm : jsMod1 (cycles * (polygon.sides : ℝ)) ≠ 0) :
    cyclogonSideSamples pps polygon adj cycles T s px r =
      (List.range (⌈(pps : ℝ) * jsMod1 (cycles * (polygon.sides : ℝ))⌉.toNat + 1)).map
        (cyclogonSamplePoint pps polygon adj s px r) := by
  have hlt : ¬((s : ℤ) < T - 1) := by omega
  simp only [cyclogonSideSamples]
  rw [if_neg hlt, if_pos ⟨h, hm⟩]

/-- Proof helper: the last side of an integer `cycles·n` emits the full
`pointsPerSide + 1` samples including the closing boundary sample. -/
lemma cyclogonSideSamples_last_whole (pps : ℕ) (polygon : Polygon) (adj : P2)
    (cycles : ℝ) (T : ℤ) (s : ℕ) (px r : ℝ) (h : (s : ℤ) = T - 1)
    (hm : jsMod1 (cycles * (polygon.sides : ℝ)) = 0) :
    cyclogonSideSamples pps polygon adj cycles T s px r =
      (List.range (pps + 1)).map (cyclogonSamplePoint pps polygon adj s px r) := by
  have hlt : ¬((s : ℤ) < T - 1) := by omega
  have hne : ¬((s : ℤ) = T - 1 ∧ jsMod1 (cycles * (polygon.sides : ℝ)) ≠ 0) :=
    fun hand => hand.2 hm
  simp only [cyclogonSideSamples]
  rw [if_neg hlt, if_neg hne, mul_one, Int.ceil_natCast, Int.toNat_natCast]

/-- Proof helper: the fractional remainder of `13/2` is `1/2`. -/
lemma jsMod1_thirteen_halves : jsMod1 (13/2 : ℝ) = 1/2 := by
  rw [jsMod1, if_pos (by norm_num), Int.fract]
  norm_num [Int.floor_eq_iff]

/-- Proof helper: the sample list of `generateCyclogon` for a square with
`cycles = 13/8` (so `cycles·n = 13/2`): six full sides of 50 samples and a
final partial side of 26 samples. -/
lemma square_thirteen_eighths_points (R : ℝ) (dp : P2) :
    (generateCyclogon 50 ⟨4, R, -(π/2)⟩ dp (13/8)).points =
      (List.range 50).map (cyclogonSamplePoint 50 ⟨4, R, -(π/2)⟩
        (adjustedPoint ⟨4, R, -(π/2)⟩ dp) 0
        ((⟨4, R, -(π/2)⟩ : Polygon).getSideLength * (((0:ℕ) : ℝ) + 1))
        ((⟨4, R, -(π/2)⟩ : Polygon).getExteriorAngle * ((0:ℕ) : ℝ))) ++
      ((List.range 50).map (cyclogonSamplePoint 50 ⟨4, R, -(π/2)⟩
        (adjustedPoint ⟨4, R, -(π/2)⟩ dp) 1
        ((⟨4, R, -(π/2)⟩ : Polygon).getSideLength * (((1:ℕ) : ℝ) + 1))
        ((⟨4, R, -(π/2)⟩ : Polygon).getExteriorAngle * ((1:ℕ) : ℝ))) ++
      ((List.range 50).map (cyclogonSamplePoint 50 ⟨4, R, -(π/2)⟩
        (adjustedPoint ⟨4, R, -(π/2)⟩ dp) 2
        ((⟨4, R, -(π/2)⟩ : Polygon).getSideLength * (((2:ℕ) : ℝ) + 1))
        ((⟨4, R, -(π/2)⟩ : Polygon).getExteriorAngle * ((2:ℕ) : ℝ))) ++
      ((List.range 50).map (cyclogonSamplePoint 50 ⟨4, R, -(π/2)⟩
        (adjustedPoint ⟨4, R, -(π/2)⟩ dp) 3
        ((⟨4, R, -(π/2)⟩ : Polygon).getSideLength * (((3:ℕ) : ℝ) + 1))
        ((⟨4, R, -(π/2)⟩ : Polygon).getExteriorAngle * ((3:ℕ) : ℝ))) ++
      ((List.range 50).map (cyclogonSamplePoint 50 ⟨4, R, -(π/2)⟩
        (adjustedPoint ⟨4, R, -(π/2)⟩ dp) 4
        ((⟨4, R, -(π/2)⟩ : Polygon).getSideLength * (((4:ℕ) : ℝ) + 1))
        ((⟨4, R, -(π/2)⟩ : Polygon).getExteriorAngle * ((4:ℕ) : ℝ))) ++
      ((List.range 50).map (cyclogonSamplePoint 50 ⟨4, R, -(π/2)⟩
        (adjustedPoint ⟨4, R, -(π/2)⟩ dp) 5
        ((⟨4, R, -(π/2)⟩ : Polygon).getSideLength * (((5:ℕ) : ℝ) + 1))
        ((⟨4, R, -(π/2)⟩ : Polygon).getExteriorAngle * ((5:ℕ) : ℝ))) ++
      ((List.range 26).map (cyclogonSamplePoint 50 ⟨4, R, -(π/2)⟩
        (adjustedPoint ⟨4, R, -(π/2)⟩ dp) 6
        ((⟨4, R, -(π/2)⟩ : Polygon).getSideLength * (((6:ℕ) : ℝ) + 1))
        ((⟨4, R, -(π/2)⟩ : Polygon).getExteriorAngle * ((6:ℕ) : ℝ))) ++
      [])))))) := by
  have hs4 : (⟨4, R, -(π/2)⟩ : Polygon).sides = 4 := rfl
  have harg : (13/8 : ℝ) * (((⟨4, R, -(π/2)⟩ : Polygon).sides : ℕ) : ℝ) = 13/2 := by
    rw [hs4]; norm_num
  have hpoints := generateCyclogon_points 50 ⟨4, R, -(π/2)⟩ dp (13/8)
  rw [harg, show ⌈(13/2 : ℝ)⌉ = (7:ℤ) by norm_num [Int.ceil_eq_iff],
    show ((7:ℤ)).toNat = 7 from rfl,
    show List.range 7 = [0, 1, 2, 3, 4, 5, 6] from rfl] at hpoints
  simp only [List.map_cons, List.map_nil, List.flatten_cons, List.flatten_nil]
    at hpoints
  rw [cyclogonSideSamples_nonlast 50 _ _ _ 7 0 _ _ (by norm_num),
    cyclogonSideSamples_nonlast 50 _ _ _ 7 1 _ _ (by norm_num),
    cyclogonSideSamples_nonlast 50 _ _ _ 7 2 _ _ (by norm_num),
    cyclogonSideSamples_nonlast 50 _ _ _ 7 3 _ _ (by norm_num),
    cyclogonSideSamples_nonlast 50 _ _ _ 7 4 _ _ (by norm_num),
    cyclogonSideSamples_nonlast 50 _ _ _ 7 5 _ _ (by norm_num),
    cyclogonSideSamples_last 50 _ _ _ 7 6 _ _ (by norm_num)
      (by rw [harg, jsMod1_thirteen_halves]; norm_num)] at hpoints
  rw [harg, jsMod1_thirteen_halves,
    show (⌈((50:ℕ) : ℝ) * (1/2)⌉.toNat + 1) = 26 by
      rw [show ⌈((50:ℕ) : ℝ) * (1/2)⌉ = (25:ℤ) by push_cast; norm_num]; rfl] at hpoints
  exact hpoints

/-- Claim C4 (amended): for a square (n = 4, any positive radius) a partial
final arc needs a non-integer `cycles·n`; with `cycles = 13/8`
(`cycles·n = 6.5`, fractional remainder `1/2`) the final side's sub-sample
count is `⌈50·(1/2)⌉ + 1 = 26` (scaled by the fractional remainder), and
the last sample sweeps half the exterior angle (rotation `6β + β/2`) around
the last pivot `(7·sideLength, 0)`.  (With `cycles = 1.5`, `cycles·n = 6`
is an integer and the final arc is full — see the counterexample.) -/
theorem cyclogon_partial_last_side (R : ℝ) (dp : P2) (hR : 0 < R) :
    (generateCyclogon 50 ⟨4, R, -(π/2)⟩ dp (13/8)).points.length = 6 * 50 + 26 ∧
    (26 : ℕ) = ⌈(50 : ℝ) * jsMod1 ((13/8) * (4 : ℝ))⌉.toNat + 1 ∧
    (generateCyclogon 50 ⟨4, R, -(π/2)⟩ dp (13/8)).lastSideIndex = some 6 ∧
    (generateCyclogon 50 ⟨4, R, -(π/2)⟩ dp (13/8)).lastRotation =
      some ((6 : ℝ) * (⟨4, R, -(π/2)⟩ : Polygon).getExteriorAngle +
        (1/2) * (⟨4, R, -(π/2)⟩ : Polygon).getExteriorAngle) ∧
    (generateCyclogon 50 ⟨4, R, -(π/2)⟩ dp (13/8)).lastPivot =
      some ⟨7 * (⟨4, R, -(π/2)⟩ : Polygon).getSideLength, 0⟩ := by
  have hpts := square_thirteen_eighths_points R dp
  have h26 : ((List.range 26).map (cyclogonSamplePoint 50 ⟨4, R, -(π/2)⟩
      (adjustedPoint ⟨4, R, -(π/2)⟩ dp) 6
      ((⟨4, R, -(π/2)⟩ : Polygon).getSideLength * (((6:ℕ) : ℝ) + 1))
      ((⟨4, R, -(π/2)⟩ : Polygon).getExteriorAngle * ((6:ℕ) : ℝ)))).getLast? =
      some (cyclogonSamplePoint 50 ⟨4, R, -(π/2)⟩
        (adjustedPoint ⟨4, R, -(π/2)⟩ dp) 6
        ((⟨4, R, -(π/2)⟩ : Polygon).getSideLength * (((6:ℕ) : ℝ) + 1))
        ((⟨4, R, -(π/2)⟩ : Polygon).getExteriorAngle * ((6:ℕ) : ℝ)) 25) := by
    rw [show List.range 26 = List.range 25 ++ [25] from rfl, List.map_append]
    simp [List.getLast?_concat]
  have hlast : (generateCyclogon 50 ⟨4, R, -(π/2)⟩ dp (13/8)).points.getLast? =
      some (cyclogonSamplePoint 50 ⟨4, R, -(π/2)⟩
        (adjustedPoint ⟨4, R, -(π/2)⟩ dp) 6
        ((⟨4, R, -(π/2)⟩ : Polygon).getSideLength * (((6:ℕ) : ℝ) + 1))
        ((⟨4, R, -(π/2)⟩ : Polygon).getExteriorAngle * ((6:ℕ) : ℝ)) 25) := by
    rw [hpts]
    simp only [List.append_nil, List.getLast?_append, h26, Option.or_some]
  refine ⟨?_, ?_, ?_, ?_, ?_⟩
  · rw [hpts]
    simp only [List.length_append, List.length_map, List.length_range,
      List.length_nil]
  · rw [show (13/8 : ℝ) * (4 : ℝ) = 13/2 by norm_num, jsMod1_thirteen_halves,
      show ⌈(50:ℝ) * (1/2)⌉ = (25:ℤ) by norm_num]
    rfl
  · rw [Cyclogon.lastSideIndex, hlast]
    rfl
  · rw [Cyclogon.lastRotation, hlast]
    show some _ = _
    simp only [cyclogonSamplePoint, Option.some.injEq]
    push_cast
    ring
  · rw [Cyclogon.lastPivot, hlast]
    show some _ = _
    simp only [cyclogonSamplePoint, Option.some.injEq, P2.mk.injEq]
    exact ⟨by push_cast; ring, trivial⟩

/-- Witness for C4 (amended) at radius 1 and trace point `(0, 1)`. -/
theorem cyclogon_partial_last_side_witness :
    (0:ℝ) < 1 ∧
    ((generateCyclogon 50 ⟨4, 1, -(π/2)⟩ ⟨0, 1⟩ (13/8)).points.length = 6 * 50 + 26 ∧
    (26 : ℕ) = ⌈(50 : ℝ) * jsMod1 ((13/8) * (4 : ℝ))⌉.toNat + 1 ∧
    (generateCyclogon 50 ⟨4, 1, -(π/2)⟩ ⟨0, 1⟩ (13/8)).lastSideIndex = some 6 ∧
    (generateCyclogon 50 ⟨4, 1, -(π/2)⟩ ⟨0, 1⟩ (13/8)).lastRotation =
      some ((6 : ℝ) * (⟨4, 1, -(π/2)⟩ : Polygon).getExteriorAngle +
        (1/2) * (⟨4, 1, -(π/2)⟩ : Polygon).getExteriorAngle) ∧
    (generateCyclogon 50 ⟨4, 1, -(π/2)⟩ ⟨0, 1⟩ (13/8)).lastPivot =
      some ⟨7 * (⟨4, 1, -(π/2)⟩ : Polygon).getSideLength, 0⟩) :=
  ⟨one_pos, cyclogon_partial_last_side 1 ⟨0, 1⟩ one_pos⟩

/-- Proof helper: the fractional remainder of 6 is 0. -/
lemma jsMod1_six : jsMod1 (6 : ℝ) = 0 := by
  rw [jsMod1, if_pos (by norm_num), Int.fract]
  norm_num [Int.floor_eq_iff]

/-- Proof helper: the last sample of a square rolled for `cycles = 3/2`:
since `cycles·n = 6` is an integer, the last side is side 5 with the full
51 samples, ending at `p = 50`. -/
lemma square_three_halves_last :
    (generateCyclogon 50 ⟨4, 1, -(π/2)⟩ ⟨0, 1⟩ (3/2)).points.getLast? =
      some (cyclogonSamplePoint 50 ⟨4, 1, -(π/2)⟩
        (adjustedPoint ⟨4, 1, -(π/2)⟩ ⟨0, 1⟩) 5
        ((⟨4, 1, -(π/2)⟩ : Polygon).getSideLength * (((5:ℕ) : ℝ) + 1))
        ((⟨4, 1, -(π/2)⟩ : Polygon).getExteriorAngle * ((5:ℕ) : ℝ)) 50) := by
  have hs4 : (⟨4, 1, -(π/2)⟩ : Polygon).sides = 4 := rfl
  have harg : (3/2 : ℝ) * ((⟨4, 1, -(π/2)⟩ : Polygon).sides : ℝ) = 6 := by
    rw [hs4]; norm_num
  have hpoints := generateCyclogon_points 50 ⟨4, 1, -(π/2)⟩ ⟨0, 1⟩ (3/2)
  rw [harg, show ⌈(6:ℝ)⌉ = (6:ℤ) by norm_num, show ((6:ℤ)).toNat = 6 from rfl,
    show List.range 6 = [0, 1, 2, 3, 4, 5] from rfl] at hpoints
  simp only [List.map_cons, List.map_nil, List.flatten_cons, List.flatten_nil]
    at hpoints
  rw [cyclogonSideSamples_nonlast 50 _ _ _ 6 0 _ _ (by norm_num),
    cyclogonSideSamples_nonlast 50 _ _ _ 6 1 _ _ (by norm_num),
    cyclogonSideSamples_nonlast 50 _ _ _ 6 2 _ _ (by norm_num),
    cyclogonSideSamples_nonlast 50 _ _ _ 6 3 _ _ (by norm_num),
    cyclogonSideSamples_nonlast 50 _ _ _ 6 4 _ _ (by norm_num),
    cyclogonSideSamples_last_whole 50 _ _ _ 6 5 _ _ (by norm_num)
      (by rw [harg, jsMod1_six])] at hpoints
  rw [hpoints]
  have h51 : ((List.range (50 + 1)).map (cyclogonSamplePoint 50 ⟨4, 1, -(π/2)⟩
      (adjustedPoint ⟨4, 1, -(π/2)⟩ ⟨0, 1⟩) 5
      ((⟨4, 1, -(π/2)⟩ : Polygon).getSideLength * (((5:ℕ) : ℝ) + 1))
      ((⟨4, 1, -(π/2)⟩ : Polygon).getExteriorAngle * ((5:ℕ) : ℝ)))).getLast? =
      some (cyclogonSamplePoint 50 ⟨4, 1, -(π/2)⟩
        (adjustedPoint ⟨4, 1, -(π/2)⟩ ⟨0, 1⟩) 5
        ((⟨4, 1, -(π/2)⟩ : Polygon).getSideLength * (((5:ℕ) : ℝ) + 1))
        ((⟨4, 1, -(π/2)⟩ : Polygon).getExteriorAngle * ((5:ℕ) : ℝ)) 50) := by
    rw [show List.range (50 + 1) = List.range 50 ++ [50] from rfl, List.map_append]
    simp [List.getLast?_concat]
  simp only [List.append_nil, List.getLast?_append, h51, Option.or_some]

/-- Counterexample for C4 as stated: for a square with `cycles = 1.5`,
`cycles·n = 6` is an integer, so the last sample sweeps the full exterior
angle (cumulative rotation `6β`), which differs from the claimed
50%-of-exterior-angle sweep (`5β + β/2`). -/
theorem cyclogon_square_counterexample :
    (generateCyclogon 50 ⟨4, 1, -(π/2)⟩ ⟨0, 1⟩ (3/2)).lastRotation =
      some ((6 : ℝ) * (⟨4, 1, -(π/2)⟩ : Polygon).getExteriorAngle) ∧
    (6 : ℝ) * (⟨4, 1, -(π/2)⟩ : Polygon).getExteriorAngle ≠
      (5 : ℝ) * (⟨4, 1, -(π/2)⟩ : Polygon).getExteriorAngle +
        (1/2) * (⟨4, 1, -(π/2)⟩ : Polygon).getExteriorAngle := by
  constructor
  · rw [Cyclogon.lastRotation, square_three_halves_last]
    show some _ = _
    simp only [cyclogonSamplePoint, Option.some.injEq]
    push_cast
    ring
  · have hβ : (⟨4, 1, -(π/2)⟩ : Polygon).getExteriorAngle = π/2 := by
      show 2 * π / (((4:ℕ) : ℕ) : ℝ) = π/2
      push_cast
      ring
    rw [hβ]
    intro h
    exact Real.pi_ne_zero (by linarith)

/-- Proof helper: every side's sample list is a map over an index range of
at least one sub-step, and exactly `pointsPerSide` sub-steps when the side
is not the last. -/
lemma cyclogonSideSamples_shape (pps : ℕ) (polygon : Polygon) (adj : P2)
    (cycles : ℝ) (T : ℤ) (s : ℕ) (px r : ℝ) (hpps : 0 < pps) :
    ∃ k : ℕ, cyclogonSideSamples pps polygon adj cycles T s px r =
      (List.range k).map (cyclogonSamplePoint pps polygon adj s px r) ∧
      1 ≤ k ∧ ((s : ℤ) < T - 1 → k = pps) := by
  by_cases h : (s : ℤ) < T - 1
  · exact ⟨pps, cyclogonSideSamples_nonlast pps polygon adj cycles T s px r h,
      hpps, fun _ => rfl⟩
  · refine ⟨⌈(pps : ℝ) * (if (s : ℤ) = T - 1 ∧
        jsMod1 (cycles * (polygon.sides : ℝ)) ≠ 0
        then jsMod1 (cycles * (polygon.sides : ℝ)) else 1)⌉.toNat + 1,
      ?_, by omega, fun hlt => absurd hlt h⟩
    simp only [cyclogonSideSamples]
    rw [if_neg h]

/-- Proof helper: the recorded rotations of a mapped sub-step range. -/
lemma filterMap_rotation_range (pps : ℕ) (polygon : Polygon) (adj : P2)
    (s : ℕ) (px r : ℝ) (k : ℕ) :
    ((List.range k).map (cyclogonSamplePoint pps polygon adj s px r)).filterMap
        SamplePoint.rotation =
      (List.range k).map
        (fun (p : ℕ) => r + ((p : ℝ) / (pps : ℝ)) * polygon.getExteriorAngle) := by
  have hcomp : SamplePoint.rotation ∘ cyclogonSamplePoint pps polygon adj s px r =
      some ∘ (fun (p : ℕ) =>
        r + ((p : ℝ) / (pps : ℝ)) * polygon.getExteriorAngle) := rfl
  rw [List.filterMap_map, hcomp, List.filterMap_eq_map]

/-- Proof helper: rotations within one side are strictly increasing. -/
lemma chain_rotations_range (pps : ℕ) (polygon : Polygon) (r : ℝ) (k : ℕ)
    (hpps : 0 < pps) (hβ : 0 < polygon.getExteriorAngle) :
    List.Chain' (· < ·) ((List.range k).map
      (fun (p : ℕ) => r + ((p : ℝ) / (pps : ℝ)) * polygon.getExteriorAngle)) := by
  cases k with
  | zero => simp
  | succ k =>
      rw [List.chain'_map]
      refine (List.chain'_range_succ _ k).2 (fun m _ => ?_)
      have hpps' : (0:ℝ) < (pps : ℝ) := by exact_mod_cast hpps
      have hm : ((m : ℕ) : ℝ) / (pps : ℝ) < ((m.succ : ℕ) : ℝ) / (pps : ℝ) :=
        (div_lt_div_iff_of_pos_right hpps').2 (by exact_mod_cast Nat.lt_succ_self m)
      exact add_lt_add_left (mul_lt_mul_of_pos_right hm hβ) r

/-- Claim C6: the samples of every generated curve are in strictly
increasing parametric order: the recorded `theta` values of a cycloid are
strictly increasing, and the recorded cumulative rotations of a cyclogon
are strictly increasing (in particular the boundary sample shared by two
consecutive sides appears only once). -/
theorem curve_monotone_parametric (ppr pps : ℕ) (circle : Circle)
    (polygon : Polygon) (p dp : P2) (c c' : ℝ)
    (hppr : 0 < ppr) (hpps : 0 < pps) (hc : 0 < c) (hc' : 0 < c')
    (hn : 3 ≤ polygon.sides) :
    List.Chain' (· < ·)
      ((generateCycloid ppr circle p c).points.filterMap SamplePoint.theta) ∧
    List.Chain' (· < ·)
      ((generateCyclogon pps polygon dp c').points.filterMap
        SamplePoint.rotation) := by
  constructor
  · have h1 : (0:ℝ) < c * (2 * π) * (ppr : ℝ) := by positivity
    have hN : (1:ℤ) ≤ ⌈c * (2 * π) * (ppr : ℝ)⌉ := Int.ceil_pos.2 h1
    simp only [generateCycloid]
    have hcomp : SamplePoint.theta ∘
        (fun (i : ℕ) => cycloidSample circle.radius
          (Real.sqrt (p.x ^ 2 + p.y ^ 2)) (atan2 p.y p.x)
          (((i : ℝ) / ((⌈c * (2 * π) * (ppr : ℝ)⌉ : ℤ) : ℝ)) * (c * (2 * π)))) =
        some ∘ (fun (i : ℕ) =>
          ((i : ℝ) / ((⌈c * (2 * π) * (ppr : ℝ)⌉ : ℤ) : ℝ)) * (c * (2 * π))) := rfl
    rw [List.filterMap_map, hcomp, List.filterMap_eq_map]
    rw [show (⌈c * (2 * π) * (ppr : ℝ)⌉ + 1).toNat =
      ⌈c * (2 * π) * (ppr : ℝ)⌉.toNat + 1 by omega]
    rw [List.chain'_map]
    refine (List.chain'_range_succ _ _).2 (fun m _ => ?_)
    have hNr : (0:ℝ) < ((⌈c * (2 * π) * (ppr : ℝ)⌉ : ℤ) : ℝ) := by
      exact_mod_cast lt_of_lt_of_le one_pos hN
    have hA : (0:ℝ) < c * (2 * π) := by positivity
    have hm : ((m : ℕ) : ℝ) / ((⌈c * (2 * π) * (ppr : ℝ)⌉ : ℤ) : ℝ) <
        ((m.succ : ℕ) : ℝ) / ((⌈c * (2 * π) * (ppr : ℝ)⌉ : ℤ) : ℝ) :=
      (div_lt_div_iff_of_pos_right hNr).2 (by exact_mod_cast Nat.lt_succ_self m)
    exact mul_lt_mul_of_pos_right hm hA
  · have hn0 : 0 < polygon.sides := by omega
    have hn' : (0:ℝ) < (polygon.sides : ℝ) := by exact_mod_cast hn0
    have hβ : 0 < polygon.getExteriorAngle := by
      rw [Polygon.getExteriorAngle]
      exact div_pos (by positivity) hn'
    have hT : (1:ℤ) ≤ ⌈c' * (polygon.sides : ℝ)⌉ :=
      Int.ceil_pos.2 (by positivity)
    rw [generateCyclogon_points, List.filterMap_flatten, List.map_map]
    refine (List.chain'_flatten ?_).2 ⟨?_, ?_⟩
    · intro hmem
      simp only [List.mem_map] at hmem
      obtain ⟨s, -, hFs⟩ := hmem
      obtain ⟨k, hk, hk1, -⟩ := cyclogonSideSamples_shape pps polygon
        (adjustedPoint polygon dp) c' ⌈c' * (polygon.sides : ℝ)⌉ s
        (polygon.getSideLength * ((s : ℝ) + 1))
        (polygon.getExteriorAngle * (s : ℝ)) hpps
      rw [Function.comp_apply, hk, filterMap_rotation_range] at hFs
      have hlen := congrArg List.length hFs
      simp only [List.length_map, List.length_range, List.length_nil] at hlen
      omega
    · intro l hl
      simp only [List.mem_map] at hl
      obtain ⟨s, -, rfl⟩ := hl
      obtain ⟨k, hk, -, -⟩ := cyclogonSideSamples_shape pps polygon
        (adjustedPoint polygon dp) c' ⌈c' * (polygon.sides : ℝ)⌉ s
        (polygon.getSideLength * ((s : ℝ) + 1))
        (polygon.getExteriorAngle * (s : ℝ)) hpps
      rw [Function.comp_apply, hk, filterMap_rotation_range]
      exact chain_rotations_range pps polygon _ k hpps hβ
    · rw [List.chain'_map]
      rw [show ⌈c' * (polygon.sides : ℝ)⌉.toNat =
        (⌈c' * (polygon.sides : ℝ)⌉.toNat - 1) + 1 by omega]
      refine (List.chain'_range_succ _ _).2 (fun m hm => ?_)
      intro x hx y hy
      have hmT : (m : ℤ) < ⌈c' * (polygon.sides : ℝ)⌉ - 1 := by omega
      rw [Function.comp_apply,
        cyclogonSideSamples_nonlast pps polygon (adjustedPoint polygon dp) c'
          ⌈c' * (polygon.sides : ℝ)⌉ m
          (polygon.getSideLength * ((m : ℝ) + 1))
          (polygon.getExteriorAngle * (m : ℝ)) hmT,
        filterMap_rotation_range] at hx
      obtain ⟨k2, hk2, hk21, -⟩ := cyclogonSideSamples_shape pps polygon
        (adjustedPoint polygon dp) c' ⌈c' * (polygon.sides : ℝ)⌉ m.succ
        (polygon.getSideLength * ((m.succ : ℝ) + 1))
        (polygon.getExteriorAngle * (m.succ : ℝ)) hpps
      rw [Function.comp_apply, hk2, filterMap_rotation_range] at hy
      rw [List.getLast?_map, List.getLast?_range, if_neg (by omega)] at hx
      obtain ⟨k2', rfl⟩ : ∃ k2', k2 = k2' + 1 := ⟨k2 - 1, by omega⟩
      rw [List.range_succ_eq_map, List.map_cons, List.head?_cons] at hy
      simp only [Option.mem_def, Option.map_some', Option.some.injEq] at hx hy
      subst hx
      subst hy
      have hpps' : (0:ℝ) < (pps : ℝ) := by exact_mod_cast hpps
      have hsub : ((pps - 1 : ℕ) : ℝ) = (pps : ℝ) - 1 := by
        push_cast [Nat.cast_sub (by omega : 1 ≤ pps)]
        ring
      rw [hsub]
      have hfrac : ((pps : ℝ) - 1) / (pps : ℝ) < 1 :=
        (div_lt_one hpps').2 (by linarith)
      have hs : ((m.succ : ℕ) : ℝ) = (m : ℝ) + 1 := by push_cast; ring
      rw [hs]
      push_cast
      rw [zero_div, zero_mul, add_zero]
      nlinarith [mul_lt_mul_of_pos_right hfrac hβ]

/-- Witness for C6: concrete circle and square at one cycle each. -/
theorem curve_monotone_parametric_witness :
    ((0:ℕ) < 30 ∧ (0:ℕ) < 50 ∧ (0:ℝ) < 1 ∧ 3 ≤ (⟨4, 1, -(π/2)⟩ : Polygon).sides) ∧
    (List.Chain' (· < ·)
      ((generateCycloid 30 ⟨1, ⟨0, 0⟩⟩ ⟨0, 1⟩ 1).points.filterMap
        SamplePoint.theta) ∧
    List.Chain' (· < ·)
      ((generateCyclogon 50 ⟨4, 1, -(π/2)⟩ ⟨0, 1⟩ 1).points.filterMap
        SamplePoint.rotation)) :=
  ⟨⟨by norm_num, by norm_num, one_pos, by norm_num [Polygon.sides]⟩,
    curve_monotone_parametric 30 50 ⟨1, ⟨0, 0⟩⟩ ⟨4, 1, -(π/2)⟩ ⟨0, 1⟩ ⟨0, 1⟩ 1 1
      (by norm_num) (by norm_num) one_pos one_pos (by norm_num [Polygon.sides])⟩

/-- Proof helper: a `min`-fold is a lower bound of its seed and of every
folded value. -/
lemma foldl_min_bound (f : SamplePoint → ℝ) (l : List SamplePoint) (a : ℝ) :
    l.foldl (fun m q => min m (f q)) a ≤ a ∧
    ∀ q ∈ l, l.foldl (fun m q => min m (f q)) a ≤ f q := by
  induction l generalizing a with
  | nil => simp
  | cons p ps ih =>
      refine ⟨le_trans (ih (min a (f p))).1 (min_le_left _ _), ?_⟩
      intro q hq
      rcases List.mem_cons.1 hq with rfl | hq
      · exact le_trans (ih _).1 (min_le_right _ _)
      · exact (ih _).2 q hq

/-- Proof helper: a `max`-fold is an upper bound of its seed and of every
folded value. -/
lemma foldl_max_bound (f : SamplePoint → ℝ) (l : List SamplePoint) (a : ℝ) :
    a ≤ l.foldl (fun m q => max m (f q)) a ∧
    ∀ q ∈ l, f q ≤ l.foldl (fun m q => max m (f q)) a := by
  induction l generalizing a with
  | nil => simp
  | cons p ps ih =>
      refine ⟨le_trans (le_max_left _ _) (ih (max a (f p))).1, ?_⟩
      intro q hq
      rcases List.mem_cons.1 hq with rfl | hq
      · exact le_trans (le_max_right _ _) (ih _).1
      · exact (ih _).2 q hq

/-- Counterexample for C8 as stated: the one-point curve is non-empty, but
its bounding box has zero extent, so `normalize` returns `scale = 0` and
`0/0 = NaN` coordinates; scaling back and translating leaves NaN, and the
original point `(1, 2)` is not reconstructed. -/
theorem normalize_round_trip_counterexample :
    onePointCurve.normalize =
      ([{ x := JSNum.nan, y := JSNum.nan }], some ⟨1, 2, 0⟩) ∧
    translatePoints (scalePoints
        [({ x := JSNum.nan, y := JSNum.nan } : JSSamplePoint)] 0) 1 2 =
      [{ x := JSNum.nan, y := JSNum.nan }] ∧
    ¬ ([({ x := JSNum.nan, y := JSNum.nan } : JSSamplePoint)] =
        onePointCurve.points.map SamplePoint.toJS) := by
  have hbb : onePointCurve.getBoundingBox = some
      { minX := 1, maxX := 1, minY := 2, maxY := 2,
        width := 1 - 1, height := 2 - 2,
        center := ⟨(1 + 1) / 2, (2 + 2) / 2⟩ } := by
    simp only [onePointCurve, Cyclogon.getBoundingBox, List.foldl_nil]
  have hs0 : max ((1:ℝ) - 1) (2 - 2) = 0 := by norm_num
  have hd0 : jsDiv (0:ℝ) 0 = JSNum.nan := by
    rw [jsDiv, if_pos rfl, if_pos rfl]
  refine ⟨?_, ?_, ?_⟩
  · simp only [Cyclogon.normalize]
    rw [hbb]
    simp only [onePointCurve, List.map_cons, List.map_nil, SamplePoint.toJS]
    norm_num [hs0, hd0]
  · simp only [scalePoints, translatePoints, List.map_cons, List.map_nil]
    rfl
  · intro hcontra
    simp only [onePointCurve, List.map_cons, List.map_nil,
      SamplePoint.toJS, List.cons.injEq, JSSamplePoint.mk.injEq] at hcontra
    exact JSNum.noConfusion hcontra.1.1

/-- Claim C8 (amended): on every non-empty curve whose points do not all
coincide (positive bounding-box extent, hence `scale > 0`), `normalize`
returns `{offsetX, offsetY, scale}`, and applying `scale(scale)` followed
by `translate(offsetX, offsetY)` to the normalized points reconstructs the
original points (hence the original bounding box).  When all points
coincide `scale = 0` and the `0/0` divisions produce NaN instead, so the
round trip fails — see the counterexample. -/
theorem normalize_round_trip (c : Cyclogon) (h : c.points ≠ [])
    (hext : ∃ a ∈ c.points, ∃ b ∈ c.points, a.x ≠ b.x ∨ a.y ≠ b.y) :
    ∃ pts' info, c.normalize = (pts', some info) ∧
      translatePoints (scalePoints pts' info.scale) info.offsetX info.offsetY =
        c.points.map SamplePoint.toJS := by
  obtain ⟨p, ps, hp⟩ := List.exists_cons_of_ne_nil h
  have hbb : c.getBoundingBox = some
      { minX := ps.foldl (fun m q => min m q.x) p.x,
        maxX := ps.foldl (fun m q => max m q.x) p.x,
        minY := ps.foldl (fun m q => min m q.y) p.y,
        maxY := ps.foldl (fun m q => max m q.y) p.y,
        width := ps.foldl (fun m q => max m q.x) p.x -
          ps.foldl (fun m q => min m q.x) p.x,
        height := ps.foldl (fun m q => max m q.y) p.y -
          ps.foldl (fun m q => min m q.y) p.y,
        center := ⟨(ps.foldl (fun m q => min m q.x) p.x +
            ps.foldl (fun m q => max m q.x) p.x) / 2,
          (ps.foldl (fun m q => min m q.y) p.y +
            ps.foldl (fun m q => max m q.y) p.y) / 2⟩ } := by
    simp only [Cyclogon.getBoundingBox, hp]
  set minX := ps.foldl (fun m q => min m q.x) p.x with hminX
  set maxX := ps.foldl (fun m q => max m q.x) p.x with hmaxX
  set minY := ps.foldl (fun m q => min m q.y) p.y with hminY
  set maxY := ps.foldl (fun m q => max m q.y) p.y with hmaxY
  set s := max (maxX - minX) (maxY - minY) with hscale
  have hxlow : ∀ q ∈ c.points, minX ≤ q.x := by
    intro q hq
    rw [hp] at hq
    rcases List.mem_cons.1 hq with rfl | hq
    · exact (foldl_min_bound (fun q => q.x) ps q.x).1
    · exact (foldl_min_bound (fun q => q.x) ps p.x).2 q hq
  have hxhigh : ∀ q ∈ c.points, q.x ≤ maxX := by
    intro q hq
    rw [hp] at hq
    rcases List.mem_cons.1 hq with rfl | hq
    · exact (foldl_max_bound (fun q => q.x) ps q.x).1
    · exact (foldl_max_bound (fun q => q.x) ps p.x).2 q hq
  have hylow : ∀ q ∈ c.points, minY ≤ q.y := by
    intro q hq
    rw [hp] at hq
    rcases List.mem_cons.1 hq with rfl | hq
    · exact (foldl_min_bound (fun q => q.y) ps q.y).1
    · exact (foldl_min_bound (fun q => q.y) ps p.y).2 q hq
  have hyhigh : ∀ q ∈ c.points, q.y ≤ maxY := by
    intro q hq
    rw [hp] at hq
    rcases List.mem_cons.1 hq with rfl | hq
    · exact (foldl_max_bound (fun q => q.y) ps q.y).1
    · exact (foldl_max_bound (fun q => q.y) ps p.y).2 q hq
  have hspos : 0 < s := by
    obtain ⟨a, ha, b, hb, hab⟩ := hext
    rcases hab with hxab | hyab
    · rcases lt_or_gt_of_ne hxab with hlt | hlt
      · have h1 := hxlow a ha
        have h2 := hxhigh b hb
        exact lt_of_lt_of_le (by linarith : 0 < maxX - minX) (le_max_left _ _)
      · have h1 := hxlow b hb
        have h2 := hxhigh a ha
        exact lt_of_lt_of_le (by linarith : 0 < maxX - minX) (le_max_left _ _)
    · rcases lt_or_gt_of_ne hyab with hlt | hlt
      · have h1 := hylow a ha
        have h2 := hyhigh b hb
        exact lt_of_lt_of_le (by linarith : 0 < maxY - minY) (le_max_right _ _)
      · have h1 := hylow b hb
        have h2 := hyhigh a ha
        exact lt_of_lt_of_le (by linarith : 0 < maxY - minY) (le_max_right _ _)
  have hsne : s ≠ 0 := ne_of_gt hspos
  refine ⟨c.points.map fun q =>
      { q.toJS with x := jsDiv (q.x - minX) s, y := jsDiv (q.y - minY) s },
    ⟨minX, minY, s⟩, ?_, ?_⟩
  · simp only [Cyclogon.normalize, hbb]
  · simp only [scalePoints, translatePoints, List.map_map]
    apply List.map_congr_left
    intro q hq
    simp only [Function.comp_apply]
    rw [jsDiv, if_neg hsne, jsDiv, if_neg hsne]
    show ({ q.toJS with
        x := ((JSNum.num ((q.x - minX) / s)).mul s).add minX,
        y := ((JSNum.num ((q.y - minY) / s)).mul s).add minY } :
        JSSamplePoint) = q.toJS
    rw [JSNum.mul, JSNum.add, JSNum.mul, JSNum.add,
      div_mul_cancel₀ _ hsne, div_mul_cancel₀ _ hsne]
    rw [SamplePoint.toJS]
    simp only [JSSamplePoint.mk.injEq, JSNum.num.injEq, and_true]
    constructor
    · ring
    · ring

/-- Witness for C8 (amended) at a concrete three-point curve of positive
extent. -/
theorem normalize_round_trip_witness :
    (witnessCurve.points ≠ [] ∧
      ∃ a ∈ witnessCurve.points, ∃ b ∈ witnessCurve.points,
        a.x ≠ b.x ∨ a.y ≠ b.y) ∧
    ∃ pts' info, witnessCurve.normalize = (pts', some info) ∧
      translatePoints (scalePoints pts' info.scale) info.offsetX info.offsetY =
        witnessCurve.points.map SamplePoint.toJS :=
  ⟨⟨by simp [witnessCurve],
    ⟨{ x := 0, y := 0 }, by simp [witnessCurve],
      { x := 1, y := 1 }, by simp [witnessCurve], Or.inl (by norm_num)⟩⟩,
    normalize_round_trip witnessCurve (by simp [witnessCurve])
      ⟨{ x := 0, y := 0 }, by simp [witnessCurve],
        { x := 1, y := 1 }, by simp [witnessCurve], Or.inl (by norm_num)⟩⟩

/-- Proof helper: the distance from the segment's start point to the
segment is zero. -/
lemma perpendicularDistance_left (a b : SamplePoint) :
    perpendicularDistance a a b = 0 := by
  simp only [perpendicularDistance]
  split_ifs with h
  · simp
  · simp

/-- Proof helper: the distance from the segment's end point to the
segment is zero. -/
lemma perpendicularDistance_right (a b : SamplePoint) :
    perpendicularDistance b a b = 0 := by
  simp only [perpendicularDistance]
  split_ifs with h
  · have hx : b.x - a.x = 0 := by nlinarith [sq_nonneg (b.x - a.x), sq_nonneg (b.y - a.y)]
    have hy : b.y - a.y = 0 := by nlinarith [sq_nonneg (b.x - a.x), sq_nonneg (b.y - a.y)]
    rw [hx, hy]
    simp
  · rw [div_self h]
    norm_num

/-- Proof helper: the interior scan's fold is monotone in the accumulator,
bounds every scanned distance, and lands on the accumulator or on a
scanned `(distance, index)` pair. -/
lemma dpFold_spec (first last : SamplePoint) (points : List SamplePoint) :
    ∀ (l : List ℕ) (acc : ℝ × ℕ),
      acc.1 ≤ (l.foldl (dpMaxStep first last points) acc).1 ∧
      (∀ i ∈ l, perpendicularDistance (points.getD i default) first last ≤
        (l.foldl (dpMaxStep first last points) acc).1) ∧
      ((l.foldl (dpMaxStep first last points) acc) = acc ∨
        ∃ i ∈ l, (l.foldl (dpMaxStep first last points) acc) =
          (perpendicularDistance (points.getD i default) first last, i)) := by
  intro l
  induction l with
  | nil => intro acc; simp
  | cons j rest ih =>
      intro acc
      rw [List.foldl_cons]
      obtain ⟨ih1, ih2, ih3⟩ := ih (dpMaxStep first last points acc j)
      refine ⟨?_, ?_, ?_⟩
      · refine le_trans ?_ ih1
        simp only [dpMaxStep]
        split_ifs with h
        · exact le_of_lt h
        · exact le_refl _
      · intro i hi
        rcases List.mem_cons.1 hi with rfl | hi
        · refine le_trans ?_ ih1
          simp only [dpMaxStep]
          split_ifs with h
          · exact le_refl _
          · exact le_of_not_lt h
        · exact ih2 i hi
      · rcases ih3 with heq | ⟨i, hi, heq⟩
        · rw [heq]
          simp only [dpMaxStep]
          split_ifs with h
          · exact Or.inr ⟨j, List.mem_cons_self j rest, rfl⟩
          · exact Or.inl rfl
        · exact Or.inr ⟨i, List.mem_cons_of_mem j hi, heq⟩

/-- Proof helper: the interior scan of `_douglasPeucker` returns a
non-negative maximum bounding all interior distances, and a valid interior
index whenever the maximum is positive. -/
lemma dpMax_spec (points : List SamplePoint) :
    0 ≤ (dpMax points).1 ∧
    (∀ i, 1 ≤ i → i < points.length - 1 →
      perpendicularDistance (points.getD i default) (points.headD default)
        (points.getLastD default) ≤ (dpMax points).1) ∧
    (0 < (dpMax points).1 →
      1 ≤ (dpMax points).2 ∧ (dpMax points).2 < points.length - 1) := by
  obtain ⟨h1, h2, h3⟩ := dpFold_spec (points.headD default)
    (points.getLastD default) points (List.range' 1 (points.length - 2)) (0, 0)
  simp only [dpMax]
  refine ⟨h1, ?_, ?_⟩
  · intro i hi1 hi2
    exact h2 i (List.mem_range'_1.2 ⟨hi1, by omega⟩)
  · intro hpos
    rcases h3 with heq | ⟨i, hi, heq⟩
    · rw [heq] at hpos
      norm_num at hpos
    · rw [heq]
      have hmem := List.mem_range'_1.1 hi
      exact ⟨hmem.1, by omega⟩

/-- Proof helper: dropping the last point of a two-or-more point list keeps
the head. -/
lemma head?_dropLast {l : List SamplePoint} (h : 2 ≤ l.length) :
    l.dropLast.head? = l.head? := by
  match l, h with
  | a :: b :: rest, _ => rfl

/-- Proof helper: dropping fewer points than the length keeps the last. -/
lemma getLast?_drop {l : List SamplePoint} {n : ℕ} (h : n < l.length) :
    (l.drop n).getLast? = l.getLast? := by
  have hne : l.drop n ≠ [] := by
    apply List.ne_nil_of_length_pos
    rw [List.length_drop]
    omega
  obtain ⟨y, hy⟩ := Option.isSome_iff_exists.mp (List.getLast?_isSome.mpr hne)
  conv_rhs => rw [← List.take_append_drop n l]
  rw [List.getLast?_append, hy, Option.or_some]

/-- Proof helper: a non-trivial prefix keeps the head. -/
lemma head?_take {l : List SamplePoint} {n : ℕ} (h : n ≠ 0) :
    (l.take n).head? = l.head? := by
  cases l with
  | nil => simp
  | cons a rest =>
      cases n with
      | zero => exact absurd rfl h
      | succ n => rfl

/-- Proof helper: the last element of the prefix of length `n + 1`. -/
lemma getLast?_take_succ {l : List SamplePoint} {n : ℕ} (h : n < l.length) :
    (l.take (n + 1)).getLast? = some (l.getD n default) := by
  rw [List.take_succ, List.getElem?_eq_getElem h, Option.toList_some,
    List.getLast?_concat, List.getD_eq_getElem l default h]

/-- Proof helper: dropping the last point of the prefix of length `n + 1`. -/
lemma dropLast_take {l : List SamplePoint} {n : ℕ} (h : n < l.length) :
    (l.take (n + 1)).dropLast = l.take n := by
  rw [List.take_succ, List.getElem?_eq_getElem h, Option.toList_some,
    List.dropLast_concat]

/-- Proof helper: the head of the suffix from `n`. -/
lemma head?_drop_eq {l : List SamplePoint} {n : ℕ} (h : n < l.length) :
    (l.drop n).head? = some (l.getD n default) := by
  rw [List.head?_drop, List.getElem?_eq_getElem h,
    List.getD_eq_getElem l default h]

/-- Proof helper: merging two polylines that share a boundary point merges
their segment lists. -/
lemma segsOf_append : ∀ (l r : List SamplePoint), l ≠ [] →
    l.getLast? = r.head? → segsOf (l.dropLast ++ r) = segsOf l ++ segsOf r
  | [], _, hl, _ => absurd rfl hl
  | [a], r, _, hj => by
      cases r with
      | nil => simp at hj
      | cons b rs =>
          simp only [List.getLast?_singleton, List.head?_cons,
            Option.some.injEq] at hj
          subst hj
          simp [segsOf]
  | a :: b :: l2, r, _, hj => by
      have hrec := segsOf_append (b :: l2) r (by simp)
        (by rw [← hj, List.getLast?_cons_cons])
      cases l2 with
      | nil =>
          cases r with
          | nil => simp at hj
          | cons c rs =>
              have hbc : b = c := by
                simpa [List.getLast?_cons_cons] using hj
              subst hbc
              simp [segsOf]
      | cons c l3 =>
          rw [List.dropLast_cons₂, List.cons_append]
          rw [List.dropLast_cons₂, List.cons_append] at hrec
          show (a, b) :: segsOf (b :: ((c :: l3).dropLast ++ r)) =
            ((a, b) :: segsOf (b :: c :: l3)) ++ segsOf r
          rw [List.cons_append]
          exact congrArg (List.cons (a, b)) hrec

/-- Proof helper: the pair of head and last point is a subsequence, and
the head alone is a subsequence of the list without its last point. -/
lemma head_last_pair_sublist : ∀ (l : List SamplePoint), 2 ≤ l.length →
    ([l.headD default, l.getLastD default].Sublist l ∧
      [l.headD default].Sublist l.dropLast) := by
  intro l hl
  match l, hl with
  | a :: b :: rest, _ =>
      constructor
      · have hlast : (a :: b :: rest).getLastD default ∈ b :: rest := by
          rw [List.getLastD_eq_getLast?,
            List.getLast?_cons_cons,
            List.getLast?_eq_getLast (b :: rest) (by simp)]
          exact List.getLast_mem (by simp)
        exact List.cons_sublist_cons.2 (List.singleton_sublist.2 hlast)
      · rw [List.dropLast_cons₂]
        exact List.singleton_sublist.2 (List.mem_cons_self _ _)

/-- Proof helper: the Douglas-Peucker recursion, run with enough fuel on a
list of at least two points and a non-negative tolerance, returns a
subsequence with the same first and last points, of at least two points,
in which every input point is within tolerance of some segment. -/
lemma dpRec_spec : ∀ (fuel : ℕ) (points : List SamplePoint) (tol : ℝ),
    0 ≤ tol → 2 ≤ points.length → points.length ≤ fuel →
    ((douglasPeuckerRec fuel points tol).Sublist points ∧
      (douglasPeuckerRec fuel points tol).dropLast.Sublist points.dropLast) ∧
    ((douglasPeuckerRec fuel points tol).head? = points.head? ∧
      (douglasPeuckerRec fuel points tol).getLast? = points.getLast?) ∧
    2 ≤ (douglasPeuckerRec fuel points tol).length ∧
    (∀ p ∈ points, ∃ seg ∈ segsOf (douglasPeuckerRec fuel points tol),
      perpendicularDistance p seg.1 seg.2 ≤ tol) := by
  intro fuel
  induction fuel with
  | zero => intro points tol _ h2 hle; omega
  | succ fuel ih =>
      intro points tol htol h2 hle
      have hne : points ≠ [] := by intro h; rw [h] at h2; simp at h2
      simp only [douglasPeuckerRec]
      by_cases hlen : points.length < 3
      · rw [if_pos hlen]
        refine ⟨⟨List.Sublist.refl _, List.Sublist.refl _⟩, ⟨rfl, rfl⟩, h2, ?_⟩
        intro p hp
        have hlen2 : points.length = 2 := by omega
        obtain ⟨a, l1, rfl⟩ := List.exists_cons_of_ne_nil hne
        obtain ⟨b, l2, rfl⟩ := List.exists_cons_of_ne_nil
          (l := l1) (by intro h; rw [h] at hlen2; simp at hlen2)
        have hl2 : l2 = [] := by
          simp only [List.length_cons] at hlen2
          exact List.length_eq_zero.mp (by omega)
        subst hl2
        refine ⟨(a, b), by simp [segsOf], ?_⟩
        rcases List.mem_cons.1 hp with rfl | hp
        · rw [perpendicularDistance_left]; exact htol
        · rcases List.mem_cons.1 hp with rfl | hp
          · rw [perpendicularDistance_right]; exact htol
          · simp at hp
      · rw [if_neg hlen]
        obtain ⟨hnn, hbound, hidx⟩ := dpMax_spec points
        by_cases htm : tol < (dpMax points).1
        · rw [if_pos htm]
          have hpos : 0 < (dpMax points).1 := lt_of_le_of_lt htol htm
          obtain ⟨hm1, hm2⟩ := hidx hpos
          have hmlt : (dpMax points).2 < points.length := by omega
          obtain ⟨⟨ihl_sub, ihl_subd⟩, ⟨ihl_head, ihl_last⟩, ihl_len, ihl_sound⟩ :=
            ih (points.take ((dpMax points).2 + 1)) tol htol
              (by rw [List.length_take]; omega) (by rw [List.length_take]; omega)
          obtain ⟨⟨ihr_sub, ihr_subd⟩, ⟨ihr_head, ihr_last⟩, ihr_len, ihr_sound⟩ :=
            ih (points.drop (dpMax points).2) tol htol
              (by rw [List.length_drop]; omega) (by rw [List.length_drop]; omega)
          set l' := douglasPeuckerRec fuel (points.take ((dpMax points).2 + 1)) tol
            with hl'
          set r' := douglasPeuckerRec fuel (points.drop (dpMax points).2) tol
            with hr'
          have hr'ne : r' ≠ [] := by
            intro h; rw [h] at ihr_len; simp at ihr_len
          have hl'ne : l' ≠ [] := by
            intro h; rw [h] at ihl_len; simp at ihl_len
          have hjunc : l'.getLast? = r'.head? := by
            rw [ihl_last, ihr_head, getLast?_take_succ hmlt, head?_drop_eq hmlt]
          have hsubl : l'.dropLast.Sublist (points.take (dpMax points).2) := by
            have h1 := ihl_subd
            rwa [dropLast_take hmlt] at h1
          have hsub : (l'.dropLast ++ r').Sublist points := by
            have := List.Sublist.append hsubl ihr_sub
            rwa [List.take_append_drop] at this
          have hdropne : points.drop (dpMax points).2 ≠ [] := by
            apply List.ne_nil_of_length_pos
            rw [List.length_drop]
            omega
          have hsubd : (l'.dropLast ++ r').dropLast.Sublist points.dropLast := by
            rw [List.dropLast_append_of_ne_nil _ hr'ne]
            have := List.Sublist.append hsubl ihr_subd
            rwa [← List.dropLast_append_of_ne_nil _ hdropne,
              List.take_append_drop] at this
          have hhead : (l'.dropLast ++ r').head? = points.head? := by
            have h1 : l'.dropLast.head? = points.head? := by
              rw [head?_dropLast ihl_len, ihl_head, head?_take (by omega)]
            obtain ⟨a, ha⟩ := Option.isSome_iff_exists.mp
              (List.head?_isSome.mpr hne)
            rw [List.head?_append, h1, ha, Option.or_some]
          have hlast : (l'.dropLast ++ r').getLast? = points.getLast? := by
            have h1 : r'.getLast? = points.getLast? := by
              rw [ihr_last, getLast?_drop hmlt]
            obtain ⟨y, hy⟩ := Option.isSome_iff_exists.mp
              (List.getLast?_isSome.mpr hr'ne)
            rw [List.getLast?_append, hy, Option.or_some, ← hy, h1]
          have hlen2' : 2 ≤ (l'.dropLast ++ r').length := by
            rw [List.length_append]
            omega
          have hsound : ∀ p ∈ points, ∃ seg ∈ segsOf (l'.dropLast ++ r'),
              perpendicularDistance p seg.1 seg.2 ≤ tol := by
            intro p hp
            have hsegs : segsOf (l'.dropLast ++ r') = segsOf l' ++ segsOf r' :=
              segsOf_append l' r' hl'ne hjunc
            rw [← List.take_append_drop ((dpMax points).2 + 1) points] at hp
            rcases List.mem_append.1 hp with h | h
            · obtain ⟨seg, hseg, hd⟩ := ihl_sound p h
              exact ⟨seg, by rw [hsegs]; exact List.mem_append_left _ hseg, hd⟩
            · have hsub' : (points.drop ((dpMax points).2 + 1)).Sublist
                  (points.drop (dpMax points).2) := by
                rw [← List.drop_drop]
                exact List.drop_sublist 1 (points.drop (dpMax points).2)
              obtain ⟨seg, hseg, hd⟩ := ihr_sound p (hsub'.subset h)
              exact ⟨seg, by rw [hsegs]; exact List.mem_append_right _ hseg, hd⟩
          exact ⟨⟨hsub, hsubd⟩, ⟨hhead, hlast⟩, hlen2', hsound⟩
        · rw [if_neg htm]
          have hnotlt := le_of_not_lt htm
          obtain ⟨hpair, hpaird⟩ := head_last_pair_sublist points h2
          refine ⟨⟨hpair, hpaird⟩, ⟨?_, ?_⟩, by simp, ?_⟩
          · show some (points.headD default) = points.head?
            cases points with
            | nil => exact absurd rfl hne
            | cons a rest => rfl
          · show some (points.getLastD default) = points.getLast?
            rw [List.getLastD_eq_getLast?]
            obtain ⟨y, hy⟩ := Option.isSome_iff_exists.mp
              (List.getLast?_isSome.mpr hne)
            rw [hy]
            rfl
          · intro p hp
            refine ⟨(points.headD default, points.getLastD default),
              by simp [segsOf], ?_⟩
            obtain ⟨i, hilt, hieq⟩ := List.getElem_of_mem hp
            have hgd : points.getD i default = p := by
              rw [List.getD_eq_getElem points default hilt, hieq]
            by_cases hi0 : i = 0
            · subst hi0
              have hfst : points.headD default = p := by
                rw [← hgd]
                cases points with
                | nil => exact absurd rfl hne
                | cons a rest => rfl
              rw [← hfst, perpendicularDistance_left]
              exact htol
            · by_cases hiN : i = points.length - 1
              · subst hiN
                have hlst : points.getLastD default = p := by
                  rw [List.getLastD_eq_getLast?, List.getLast?_eq_getElem?,
                    List.getElem?_eq_getElem hilt]
                  exact hieq
                rw [← hlst, perpendicularDistance_right]
                exact htol
              · have hb := hbound i (by omega) (by omega)
                rw [hgd] at hb
                exact le_trans hb hnotlt

/-- Proof helper: `simplify` equals the fueled recursion started with the
point count as fuel (the small-list guard coincides with the recursion's
own base case). -/
lemma simplify_eq_dpRec (c : Cyclogon) (tolerance : ℝ) (h : c.points ≠ []) :
    simplify c tolerance =
      douglasPeuckerRec c.points.length c.points tolerance := by
  simp only [simplify]
  by_cases hlen : c.points.length < 3
  · rw [if_pos hlen]
    obtain ⟨f, hf⟩ : ∃ f, c.points.length = f + 1 :=
      ⟨c.points.length - 1, by
        have := List.length_pos.mpr h
        omega⟩
    rw [hf, douglasPeuckerRec, if_pos (by omega)]
  · rw [if_neg hlen]

/-- Claim C7: for every curve of at least two points and tolerance ≥ 0,
`simplify` returns a subsequence of the points that keeps the original
first and last point, and every input point (in particular every removed
point) lies at clamped perpendicular distance at most `tolerance` from
some segment of the simplified polyline. -/
theorem simplify_spec (c : Cyclogon) (tolerance : ℝ)
    (h2 : 2 ≤ c.points.length) (ht : 0 ≤ tolerance) :
    (simplify c tolerance).Sublist c.points ∧
    (simplify c tolerance).head? = c.points.head? ∧
    (simplify c tolerance).getLast? = c.points.getLast? ∧
    ∀ p ∈ c.points, ∃ seg ∈ segsOf (simplify c tolerance),
      perpendicularDistance p seg.1 seg.2 ≤ tolerance := by
  have hne : c.points ≠ [] := by
    intro h
    rw [h] at h2
    simp at h2
  rw [simplify_eq_dpRec c tolerance hne]
  obtain ⟨⟨hsub, -⟩, ⟨hhead, hlast⟩, -, hsound⟩ :=
    dpRec_spec c.points.length c.points tolerance ht h2 (le_refl _)
  exact ⟨hsub, hhead, hlast, hsound⟩

/-- Witness for C7 at a concrete three-point curve with tolerance 1. -/
theorem simplify_spec_witness :
    (2 ≤ witnessCurve.points.length ∧ (0:ℝ) ≤ 1) ∧
    ((simplify witnessCurve 1).Sublist witnessCurve.points ∧
    (simplify witnessCurve 1).head? = witnessCurve.points.head? ∧
    (simplify witnessCurve 1).getLast? = witnessCurve.points.getLast? ∧
    ∀ p ∈ witnessCurve.points, ∃ seg ∈ segsOf (simplify witnessCurve 1),
      perpendicularDistance p seg.1 seg.2 ≤ 1) :=
  ⟨⟨by simp [witnessCurve], by norm_num⟩,
    simplify_spec witnessCurve 1 (by simp [witnessCurve]) (by norm_num)⟩

end CyclogonsGraph
